import Mathlib

/-!
Shallow embedding of the `neldermead` Go package (Nelder-Mead simplex
optimization).  Go `float64` values are modelled as rationals `ℚ`; the
transcendental `math.Sqrt` is abstracted as an explicit function parameter
`sqrtFn : ℚ → ℚ` threaded to the definitions that use it.  The float special
values NaN and ±Inf have no rational counterpart; the places where they matter
are noted on the corresponding definitions.  Go's in-place slice mutation is
modelled by pure state passing; a separate store-based model at the end of the
file captures the slice-aliasing (frame) behaviour of `createSimplex`/`Run`.
-/

namespace NelderMead

/-- `Point` from the source: a coordinate vector `X` with its cached objective
value `F`. -/
structure Point where
  X : List ℚ
  F : ℚ
deriving DecidableEq

instance : Inhabited Point := ⟨⟨[], 0⟩⟩

/-- `Constraint` from the source: a `(Min, Max)` bound for one dimension. -/
structure Constraint where
  Min : ℚ
  Max : ℚ
deriving DecidableEq

instance : Inhabited Constraint := ⟨⟨0, 0⟩⟩

/-- `Options` from the source, field for field.  Go's `int` is modelled as
`Int`. -/
structure Options where
  Alpha : ℚ
  Beta : ℚ
  Gamma : ℚ
  Delta : ℚ
  Tolerance : ℚ
  CollapseThreshold : ℚ
  MaxIterations : Int
  Constraints : List Constraint
deriving DecidableEq

/-- `Simplex` from the source: the list of n+1 vertices. -/
structure Simplex where
  Points : List Point
deriving DecidableEq

/-- The two error shapes `Run` can produce: a validation error carrying the
`errors.New` message, or `ErrorSimplexCollapse`. -/
inductive Err where
  | validation (msg : String)
  | simplexCollapse
deriving DecidableEq

/-- `Objective` from the source. -/
abbrev Objective : Type := List ℚ → ℚ

/-- `Constraint.validate` from the source.  The first two branches of the Go
code reject NaN and infinite bounds; those float special values are not
representable in the rational embedding, so the two branches are identically
false here and only the `Max < Min` and `Min == Max` checks remain. -/
def Constraint.validate (c : Constraint) : Option String :=
  if c.Max < c.Min then some "constraint value for Min must be less than Max"
  else if c.Min = c.Max then some "constraint value for Min not be equal to Max"
  else none

/-- The `for _, constraint := range options.Constraints` loop inside
`Options.validate`: return the first constraint validation error, if any. -/
def validateConstraintList : List Constraint → Option String
  | [] => none
  | c :: rest =>
    match c.validate with
    | some e => some e
    | none => validateConstraintList rest

/-- `Options.validate` from the source: the chain of parameter checks. -/
def Options.validate (options : Options) : Option String :=
  if options.Alpha ≤ 0 then
    some "invalid Options parameter: Alpha must be greater than 0"
  else if options.Beta ≤ 0 ∨ 1 ≤ options.Beta then
    some "invalid Options parameter: Beta must be in the range [0, 1]"
  else if options.Gamma ≤ 1 then
    some "invalid Options parameter: Gamma must be greater than 1"
  else if options.Delta ≤ 0 ∨ 1 ≤ options.Delta then
    some "invalid Options parameter: Delta must be in the range [0, 1]"
  else if options.Tolerance ≤ 0 then
    some "invalid Options parameter: Tolerance must be greater than 0"
  else if options.MaxIterations ≤ 0 then
    some "invalid Options parameter: MaxIterations must be greater than 0"
  else validateConstraintList options.Constraints

/-- `Options.validateX0` from the source: the constraint-count check followed
by the per-coordinate bounds check.  The Go loop reports the same message for
every violating index, so it is modelled with `List.any` over the zipped
pairs (the length equality was just checked, so `zip` covers all of `x0`). -/
def Options.validateX0 (options : Options) (x0 : List ℚ) : Option String :=
  if options.Constraints.length ≠ 0 ∧ options.Constraints.length ≠ x0.length then
    some "invalid options: The number of constraints must match the length of x0"
  else if options.Constraints.length ≠ 0 then
    if (x0.zip options.Constraints).any (fun p => p.1 < p.2.Min || p.1 > p.2.Max) then
      some "invalid initial x parameter: x0 must satisfy the constraints"
    else none
  else none

/-- `ensureXAreInConstraintBounds` from the source: clamp each coordinate into
its `[Min, Max]` interval (first raise to `Min`, then cap at `Max`).  The Go
loop runs over the indices of `x` and reads `constraints[i]`; at every call
site the two lists have equal length, which `zip` mirrors. -/
def ensureXAreInConstraintBounds (x : List ℚ) (constraints : List Constraint) : List ℚ :=
  (x.zip constraints).map fun p =>
    let xi := if p.1 < p.2.Min then p.2.Min else p.1
    if xi > p.2.Max then p.2.Max else xi

/-- Vertex `i` of the initial simplex, as built element-wise by
`createSimplex`: the slice starts as `len(x)` zeros, coordinates `j < n` are
copied from `x`, and for vertices `i ≥ 1` coordinate `i-1` gets `+ 1.0`. -/
def simplexVertex (x : List ℚ) (n i : Nat) : List ℚ :=
  x.enum.map fun jx => if jx.1 < n then (if 1 ≤ i ∧ i - 1 = jx.1 then jx.2 + 1 else jx.2) else 0

/-- `createSimplex` from the source: n+1 vertices (vertex 0 is `x`, vertex i
perturbs dimension i-1 by one unit), every vertex clamped into bounds when
constraints are present.  `F` fields start at zero as Go's `make` leaves
them. -/
def createSimplex (x : List ℚ) (n : Nat) (constraints : List Constraint) : Simplex :=
  let pts := (List.range (n + 1)).map fun i => Point.mk (simplexVertex x n i) 0
  if constraints.length > 0 then
    ⟨pts.map fun p => { p with X := ensureXAreInConstraintBounds p.X constraints }⟩
  else ⟨pts⟩

/-- The `simplex.Points[i].F = f(simplex.Points[i].X)` evaluation loop shared
by `Run` and `runIteration`. -/
def evalAll (f : Objective) (s : Simplex) : Simplex :=
  ⟨s.Points.map fun p => { p with F := f p.X }⟩

/-- The comparison used by `sortSimplex`: ascending by `F`. -/
def pointLE (a b : Point) : Prop := a.F ≤ b.F

instance : DecidableRel pointLE := fun a b => inferInstanceAs (Decidable (a.F ≤ b.F))

instance : IsTotal Point pointLE := ⟨fun a b => le_total a.F b.F⟩

instance : IsTrans Point pointLE := ⟨fun _ _ _ h h2 => le_trans h h2⟩

/-- `sortSimplex` from the source: sort the vertices ascending by `F`.  Go,s
`slices.SortFunc` is an unspecified-tie-order comparison sort; the model fixes
insertion sort as its deterministic representative. -/
def sortSimplex (s : Simplex) : Simplex :=
  ⟨List.insertionSort pointLE s.Points⟩

/-- The accumulation loop of `computeCentroid`: sum of coordinate `j` over all
vertices whose index differs from `excludeIndex` (`i` is the index of the
first listed vertex). -/
def centroidSum (excludeIndex j i : Nat) : List Point → ℚ
  | [] => 0
  | p :: rest =>
    (if i ≠ excludeIndex then p.X.getD j 0 else 0) + centroidSum excludeIndex j (i + 1) rest

/-- `computeCentroid` from the source: per-coordinate sums over all vertices
except `excludeIndex`, then division by `len(Points) - 1`.  `n` is the length
of the centroid scratch buffer, which `Run` sizes to `len(x0)`. -/
def computeCentroid (n : Nat) (s : Simplex) (excludeIndex : Nat) : List ℚ :=
  (List.range n).map fun j =>
    centroidSum excludeIndex j 0 s.Points / ((s.Points.length : ℚ) - 1)

/-- `Point.reflect` from the source: the generic affine step
`c[j] + alpha*(c[j] - p[j])`, with the objective evaluated at the new
coordinates.  The Go loop runs over the indices of `p.X` reading
`centroid[j]`; both have length `len(x0)` at every call site, which `zip`
mirrors. -/
def Point.reflect (p : Point) (f : Objective) (centroid : List ℚ) (alpha : ℚ) : Point :=
  let X := (centroid.zip p.X).map fun cp => cp.1 + alpha * (cp.1 - cp.2)
  ⟨X, f X⟩

/-- `Simplex.replacePoint` from the source: overwrite vertex `i` with the
candidate's coordinates and value (the Go code then zeroes the scratch, which
the pure model does not need to track since scratch buffers are rebuilt by
`Point.reflect` each use). -/
def replacePoint (s : Simplex) (i : Nat) (newPoint : Point) : Simplex :=
  ⟨s.Points.set i ⟨newPoint.X, newPoint.F⟩⟩

/-- `shrinkSimplex` from the source: every vertex except the best moves toward
the best by factor `delta`.  (On an empty simplex Go would panic reading
`Points[0]`; the model returns the simplex unchanged, and that case is
unreachable from `Run`.) -/
def shrinkSimplex (s : Simplex) (delta : ℚ) : Simplex :=
  match s.Points with
  | [] => s
  | best :: rest =>
    ⟨best :: rest.map fun p =>
      { p with X := (best.X.zip p.X).map fun bp => bp.1 + delta * (bp.2 - bp.1) }⟩

/-- The start-of-iteration convergence check of `runIteration`:
`|Points[0].F - Points[last].F| < Tolerance`. -/
def toleranceMet (options : Options) (s : Simplex) : Bool :=
  decide (|(s.Points.headD default).F - (s.Points.getD (s.Points.length - 1) default).F|
    < options.Tolerance)

/-- The end-of-iteration clamp of `runIteration`: when constraints are
present, clamp only the current best vertex (`Points[0].X`) into bounds. -/
def clampBest (options : Options) (s : Simplex) : Simplex :=
  if options.Constraints.length > 0 then
    match s.Points with
    | [] => s
    | best :: rest =>
      ⟨{ best with X := ensureXAreInConstraintBounds best.X options.Constraints } :: rest⟩
  else s

/-- Lines 246-251 of `runIteration`: the reflected value beat the second
worst, so try an expansion and install whichever of reflected/expanded has the
strictly lower value. -/
def expansionPhase (f : Objective) (options : Options) (centroid : List ℚ)
    (lastPointIndex : Nat) (reflectedPoint : Point) (s : Simplex) : Simplex :=
  let expandedPoint := reflectedPoint.reflect f centroid options.Gamma
  if expandedPoint.F < reflectedPoint.F then
    replacePoint s lastPointIndex expandedPoint
  else replacePoint s lastPointIndex reflectedPoint

/-- Lines 252-261 of `runIteration`: provisionally install the reflected point
if it beats the worst, then contract from the now-current worst; install the
contraction if it improves, otherwise shrink the whole simplex. -/
def contractionPhase (f : Objective) (options : Options) (centroid : List ℚ)
    (lastPointIndex : Nat) (reflectedPoint : Point) (s : Simplex) : Simplex :=
  let s1 :=
    if reflectedPoint.F < (s.Points.getD lastPointIndex default).F then
      replacePoint s lastPointIndex reflectedPoint
    else s
  let worst1 := s1.Points.getD lastPointIndex default
  let contractedPoint := worst1.reflect f centroid options.Beta
  if contractedPoint.F < worst1.F then replacePoint s1 lastPointIndex contractedPoint
  else shrinkSimplex s1 options.Delta

/-- Lines 243-262 of `runIteration`: the reflect/expand/contract/shrink
decision sequence on the current simplex. -/
def decisionStep (f : Objective) (options : Options) (n : Nat) (s : Simplex) : Simplex :=
  let lastPointIndex := s.Points.length - 1
  let centroid := computeCentroid n s lastPointIndex
  let worst := s.Points.getD lastPointIndex default
  let reflectedPoint := worst.reflect f centroid options.Alpha
  if reflectedPoint.F < (s.Points.getD (s.Points.length - 2) default).F then
    expansionPhase f options centroid lastPointIndex reflectedPoint s
  else contractionPhase f options centroid lastPointIndex reflectedPoint s

/-- `runIteration` from the source: the convergence check, the
reflect/expand/contract/shrink decision sequence, the re-evaluation of every
vertex, the sort, and the best-vertex clamp.  Returns the updated simplex and
the `done` flag.  `n` is the scratch-buffer length, `len(x0)` in `Run`. -/
def runIteration (f : Objective) (options : Options) (n : Nat) (s : Simplex) :
    Simplex × Bool :=
  if toleranceMet options s then (s, true)
  else (clampBest options (sortSimplex (evalAll f (decisionStep f options n s))), false)

/-- `distance` from the source: Euclidean distance, with `math.Sqrt`
abstracted as `sqrtFn`. -/
def distance (sqrtFn : ℚ → ℚ) (x1 x2 : List ℚ) : ℚ :=
  sqrtFn (((x1.zip x2).map fun p => (p.1 - p.2) * (p.1 - p.2)).sum)

/-- The nested pair loop of `Simplex.averageEdgeLength`: the distances of all
vertex pairs `i < j`. -/
def pairDistances (sqrtFn : ℚ → ℚ) : List Point → List ℚ
  | [] => []
  | p :: rest => rest.map (fun q => distance sqrtFn p.X q.X) ++ pairDistances sqrtFn rest

/-- `Simplex.averageEdgeLength` from the source: total pairwise distance
divided by the pair count. -/
def Simplex.averageEdgeLength (sqrtFn : ℚ → ℚ) (s : Simplex) : ℚ :=
  let ds := pairDistances sqrtFn s.Points
  ds.sum / (ds.length : ℚ)

/-- `Simplex.isCollapsed` from the source: threshold 0 disables the check;
otherwise compare the average edge length with the threshold.  On a
single-vertex simplex the Go code computes `0.0/0.0 = NaN` and `NaN <
threshold` is false, which the rational model renders as the explicit
zero-pair guard. -/
def Simplex.isCollapsed (sqrtFn : ℚ → ℚ) (s : Simplex) (threshold : ℚ) : Bool :=
  if threshold = 0 then false
  else if (pairDistances sqrtFn s.Points).length = 0 then false
  else decide (s.averageEdgeLength sqrtFn < threshold)

/-- The `for iter := 0; iter < options.MaxIterations && !done; iter++` loop of
`Run`, with the remaining iteration budget as fuel: run one iteration, fail
with `ErrorSimplexCollapse` (and the zero `Point{}`) if the simplex has
collapsed, stop successfully with the best vertex when `done` or when the
budget is exhausted. -/
def RunLoop (sqrtFn : ℚ → ℚ) (f : Objective) (options : Options) (n : Nat) :
    Nat → Simplex → Point × Option Err
  | 0, s => (s.Points.headD default, none)
  | fuel + 1, s =>
    let r := runIteration f options n s
    if r.1.isCollapsed sqrtFn options.CollapseThreshold then (⟨[], 0⟩, some .simplexCollapse)
    else if r.2 then (r.1.Points.headD default, none)
    else RunLoop sqrtFn f options n fuel r.1

/-- The pre-loop part of `Run`: build the simplex from `x0`, evaluate every
vertex, sort. -/
def initialSimplex (f : Objective) (x0 : List ℚ) (options : Options) : Simplex :=
  sortSimplex (evalAll f (createSimplex x0 x0.length options.Constraints))

/-- `Run` from the source, returning the Go pair `(Point, error)`: validation
first (returning the zero `Point{}` with the error), then the iteration
loop. -/
def Run (sqrtFn : ℚ → ℚ) (f : Objective) (x0 : List ℚ) (options : Options) :
    Point × Option Err :=
  match options.validate with
  | some msg => (⟨[], 0⟩, some (.validation msg))
  | none =>
    match options.validateX0 x0 with
    | some msg => (⟨[], 0⟩, some (.validation msg))
    | none =>
      RunLoop sqrtFn f options x0.length options.MaxIterations.toNat
        (initialSimplex f x0 options)

/-- The simplex produced by one iteration (first component of
`runIteration`). -/
def nmStep (f : Objective) (options : Options) (n : Nat) (s : Simplex) : Simplex :=
  (runIteration f options n s).1

/-- The `done` flag of one iteration (second component of `runIteration`). -/
def nmDone (f : Objective) (options : Options) (n : Nat) (s : Simplex) : Bool :=
  (runIteration f options n s).2

/-- The simplex after `k` iterations of a run, starting from the evaluated and
sorted initial simplex.  (Once `done` is reached an iteration returns its
input unchanged, so iterating past the convergence point is harmless.) -/
def seqState (f : Objective) (x0 : List ℚ) (options : Options) (k : Nat) : Simplex :=
  (nmStep f options x0.length)^[k] (initialSimplex f x0 options)

/-- The best value `Points[0].F` of a simplex. -/
def bestF (s : Simplex) : ℚ := (s.Points.headD default).F

/-- A concrete rational stand-in for `math.Sqrt`, exact on perfect squares
(which is all the concrete counterexamples below exercise): the integer
square roots of numerator and denominator. -/
def ratSqrt (q : ℚ) : ℚ := (Nat.sqrt q.num.toNat : ℚ) / (Nat.sqrt q.den : ℚ)

theorem ratSqrt_nonneg (q : ℚ) : 0 ≤ ratSqrt q := by
  unfold ratSqrt
  positivity

theorem ratSqrt_one : ratSqrt 1 = 1 := by
  norm_num [ratSqrt, Nat.sqrt_one]

/-! ### Basic lemmas about the iteration pieces -/

theorem runIteration_of_met (f : Objective) (options : Options) (n : Nat) (s : Simplex)
    (h : toleranceMet options s = true) : runIteration f options n s = (s, true) := by
  simp [runIteration, h]

theorem runIteration_of_not_met (f : Objective) (options : Options) (n : Nat) (s : Simplex)
    (h : toleranceMet options s = false) :
    runIteration f options n s =
      (clampBest options (sortSimplex (evalAll f (decisionStep f options n s))), false) := by
  simp [runIteration, h]

theorem nmStep_of_met (f : Objective) (options : Options) (n : Nat) (s : Simplex)
    (h : toleranceMet options s = true) : nmStep f options n s = s := by
  simp [nmStep, runIteration_of_met f options n s h]

theorem nmDone_eq_toleranceMet (f : Objective) (options : Options) (n : Nat) (s : Simplex) :
    nmDone f options n s = toleranceMet options s := by
  unfold nmDone runIteration
  split <;> simp_all

/-- A simplex with at most one vertex always passes the convergence check
(best and worst coincide), provided the tolerance is positive. -/
theorem toleranceMet_of_short (options : Options) (s : Simplex)
    (htol : 0 < options.Tolerance) (h : s.Points.length ≤ 1) :
    toleranceMet options s = true := by
  obtain ⟨ps⟩ := s
  match ps with
  | [] => simp [toleranceMet, htol]
  | [p] => simp [toleranceMet, htol]
  | p :: q :: rest => simp at h

theorem length_points_of_not_met (options : Options) (s : Simplex)
    (htol : 0 < options.Tolerance) (h : toleranceMet options s = false) :
    2 ≤ s.Points.length := by
  by_contra hlt
  rw [toleranceMet_of_short options s htol (by omega)] at h
  cases h

theorem getD_mem (l : List α) (i : Nat) (d : α) (h : i < l.length) : l.getD i d ∈ l := by
  rw [List.getD_eq_getElem l d h]
  exact List.getElem_mem h

theorem reflect_X_length (p : Point) (f : Objective) (c : List ℚ) (alpha : ℚ) :
    (p.reflect f c alpha).X.length = min c.length p.X.length := by
  simp [Point.reflect]

theorem computeCentroid_length (n : Nat) (s : Simplex) (e : Nat) :
    (computeCentroid n s e).length = n := by
  simp [computeCentroid]

theorem replacePoint_length (s : Simplex) (i : Nat) (p : Point) :
    (replacePoint s i p).Points.length = s.Points.length := by
  simp [replacePoint]

theorem shrinkSimplex_length (s : Simplex) (d : ℚ) :
    (shrinkSimplex s d).Points.length = s.Points.length := by
  obtain ⟨ps⟩ := s
  cases ps <;> simp [shrinkSimplex]

theorem evalAll_length (f : Objective) (s : Simplex) :
    (evalAll f s).Points.length = s.Points.length := by
  simp [evalAll]

theorem sortSimplex_perm (s : Simplex) : (sortSimplex s).Points.Perm s.Points :=
  List.perm_insertionSort pointLE s.Points

theorem sortSimplex_length (s : Simplex) :
    (sortSimplex s).Points.length = s.Points.length :=
  (sortSimplex_perm s).length_eq

theorem clampBest_length (options : Options) (s : Simplex) :
    (clampBest options s).Points.length = s.Points.length := by
  unfold clampBest
  split
  · obtain ⟨ps⟩ := s
    cases ps <;> simp
  · rfl

/-- The coordinate-vector lengths of all vertices. -/
def XLenInv (n : Nat) (s : Simplex) : Prop := ∀ p ∈ s.Points, p.X.length = n

theorem replacePoint_mem (s : Simplex) (i : Nat) (q p : Point)
    (hp : p ∈ (replacePoint s i q).Points) : p ∈ s.Points ∨ p = ⟨q.X, q.F⟩ :=
  List.mem_or_eq_of_mem_set hp

theorem shrinkSimplex_mem (s : Simplex) (d : ℚ) (p : Point)
    (hp : p ∈ (shrinkSimplex s d).Points) :
    p ∈ s.Points ∨ ∃ b q : Point, b ∈ s.Points ∧ q ∈ s.Points ∧
      p = { q with X := (b.X.zip q.X).map fun bp => bp.1 + d * (bp.2 - bp.1) } := by
  obtain ⟨ps⟩ := s
  match ps with
  | [] => exact Or.inl hp
  | b :: rest =>
    simp only [shrinkSimplex, List.mem_cons, List.mem_map] at hp
    rcases hp with h | ⟨q, hq, rfl⟩
    · exact Or.inl (by simp [h])
    · exact Or.inr ⟨b, q, by simp, by simp [hq]⟩

theorem XLenInv_replacePoint (n : Nat) (s : Simplex) (i : Nat) (q : Point)
    (hn : XLenInv n s) (hq : q.X.length = n) : XLenInv n (replacePoint s i q) := by
  intro p hp
  rcases replacePoint_mem _ _ _ _ hp with h | rfl
  · exact hn _ h
  · exact hq

theorem XLenInv_shrinkSimplex (n : Nat) (s : Simplex) (d : ℚ)
    (hn : XLenInv n s) : XLenInv n (shrinkSimplex s d) := by
  intro p hp
  rcases shrinkSimplex_mem _ _ _ hp with h | ⟨b, q, hb, hq, rfl⟩
  · exact hn _ h
  · simp [hn _ hb, hn _ hq]

theorem XLenInv_expansionPhase (f : Objective) (options : Options) (n : Nat)
    (centroid : List ℚ) (i : Nat) (r : Point) (s : Simplex)
    (hc : centroid.length = n) (hr : r.X.length = n) (hn : XLenInv n s) :
    XLenInv n (expansionPhase f options centroid i r s) := by
  unfold expansionPhase
  dsimp only
  split
  · exact XLenInv_replacePoint n s i _ hn (by simp [reflect_X_length, hc, hr])
  · exact XLenInv_replacePoint n s i _ hn hr

theorem XLenInv_contractTail (f : Objective) (options : Options) (n : Nat)
    (centroid : List ℚ) (i : Nat) (s1 : Simplex)
    (hi : i < s1.Points.length)
    (hc : centroid.length = n) (hs1 : XLenInv n s1) :
    XLenInv n
      (if ((s1.Points.getD i default).reflect f centroid options.Beta).F <
          (s1.Points.getD i default).F then
        replacePoint s1 i ((s1.Points.getD i default).reflect f centroid options.Beta)
      else shrinkSimplex s1 options.Delta) := by
  have hw1 : (s1.Points.getD i default).X.length = n := hs1 _ (getD_mem _ _ _ hi)
  split
  · exact XLenInv_replacePoint n _ i _ hs1 (by rw [reflect_X_length, hc, hw1, Nat.min_self])
  · exact XLenInv_shrinkSimplex n _ _ hs1

theorem XLenInv_contractionPhase (f : Objective) (options : Options) (n : Nat)
    (centroid : List ℚ) (i : Nat) (r : Point) (s : Simplex)
    (hi : i < s.Points.length)
    (hc : centroid.length = n) (hr : r.X.length = n) (hn : XLenInv n s) :
    XLenInv n (contractionPhase f options centroid i r s) := by
  unfold contractionPhase
  dsimp only
  refine XLenInv_contractTail f options n centroid i _ ?_ hc ?_
  · split <;> simp [replacePoint_length, hi]
  · split
    · exact XLenInv_replacePoint n s i r hn hr
    · exact hn

theorem XLenInv_decisionStep (f : Objective) (options : Options) (n : Nat) (s : Simplex)
    (hne : s.Points ≠ []) (hn : XLenInv n s) : XLenInv n (decisionStep f options n s) := by
  have hlen0 : 0 < s.Points.length := List.length_pos.mpr hne
  have hworst : (s.Points.getD (s.Points.length - 1) default).X.length = n :=
    hn _ (getD_mem _ _ _ (by omega))
  have hcent : (computeCentroid n s (s.Points.length - 1)).length = n :=
    computeCentroid_length n s _
  have hrefl :
      ((s.Points.getD (s.Points.length - 1) default).reflect f
        (computeCentroid n s (s.Points.length - 1)) options.Alpha).X.length = n := by
    rw [reflect_X_length, hcent, hworst]
    omega
  unfold decisionStep
  dsimp only
  split
  · exact XLenInv_expansionPhase f options n _ _ _ s hcent hrefl hn
  · exact XLenInv_contractionPhase f options n _ _ _ s (by omega) hcent hrefl hn

theorem XLenInv_evalAll (f : Objective) (n : Nat) (s : Simplex)
    (hn : XLenInv n s) : XLenInv n (evalAll f s) := by
  intro p hp
  simp only [evalAll, List.mem_map] at hp
  obtain ⟨q, hq, rfl⟩ := hp
  simpa using hn q hq

theorem XLenInv_sortSimplex (n : Nat) (s : Simplex)
    (hn : XLenInv n s) : XLenInv n (sortSimplex s) := by
  intro p hp
  exact hn _ ((sortSimplex_perm s).mem_iff.mp hp)

theorem ensureX_length (x : List ℚ) (cs : List Constraint) :
    (ensureXAreInConstraintBounds x cs).length = min x.length cs.length := by
  simp [ensureXAreInConstraintBounds]

theorem XLenInv_clampBest (options : Options) (n : Nat) (s : Simplex)
    (hcs : options.Constraints.length = n ∨ options.Constraints = [])
    (hn : XLenInv n s) : XLenInv n (clampBest options s) := by
  unfold clampBest
  split
  · rename_i hpos
    obtain ⟨ps⟩ := s
    match ps with
    | [] => exact hn
    | b :: rest =>
      intro p hp
      simp only [List.mem_cons] at hp
      rcases hp with rfl | h
      · rcases hcs with hcs | hcs
        · simp [ensureX_length, hcs, hn b (by simp)]
        · simp [hcs] at hpos
      · exact hn _ (by simp [h])
  · exact hn

theorem XLenInv_nmStep (f : Objective) (options : Options) (n : Nat) (s : Simplex)
    (hcs : options.Constraints.length = n ∨ options.Constraints = [])
    (hne : s.Points ≠ []) (hn : XLenInv n s) : XLenInv n (nmStep f options n s) := by
  unfold nmStep runIteration
  split
  · exact hn
  · exact XLenInv_clampBest options n _ hcs
      (XLenInv_sortSimplex n _ (XLenInv_evalAll f n _ (XLenInv_decisionStep f options n s hne hn)))

theorem expansionPhase_length (f : Objective) (options : Options) (centroid : List ℚ)
    (i : Nat) (r : Point) (s : Simplex) :
    (expansionPhase f options centroid i r s).Points.length = s.Points.length := by
  unfold expansionPhase
  dsimp only
  split <;> rw [replacePoint_length]

theorem contractTail_length (f : Objective) (options : Options) (centroid : List ℚ)
    (i : Nat) (s1 : Simplex) :
    (if ((s1.Points.getD i default).reflect f centroid options.Beta).F <
        (s1.Points.getD i default).F then
      replacePoint s1 i ((s1.Points.getD i default).reflect f centroid options.Beta)
    else shrinkSimplex s1 options.Delta).Points.length = s1.Points.length := by
  split
  · rw [replacePoint_length]
  · rw [shrinkSimplex_length]

theorem contractionPhase_length (f : Objective) (options : Options) (centroid : List ℚ)
    (i : Nat) (r : Point) (s : Simplex) :
    (contractionPhase f options centroid i r s).Points.length = s.Points.length := by
  unfold contractionPhase
  dsimp only
  split
  · rw [contractTail_length, replacePoint_length]
  · rw [contractTail_length]

theorem decisionStep_length (f : Objective) (options : Options) (n : Nat) (s : Simplex) :
    (decisionStep f options n s).Points.length = s.Points.length := by
  unfold decisionStep
  dsimp only
  split
  · exact expansionPhase_length f options _ _ _ s
  · exact contractionPhase_length f options _ _ _ s

theorem nmStep_length (f : Objective) (options : Options) (n : Nat) (s : Simplex) :
    (nmStep f options n s).Points.length = s.Points.length := by
  unfold nmStep runIteration
  split
  · rfl
  · simp [clampBest_length, sortSimplex_length, evalAll_length, decisionStep_length]

theorem createSimplex_length (x : List ℚ) (n : Nat) (cs : List Constraint) :
    (createSimplex x n cs).Points.length = n + 1 := by
  unfold createSimplex
  split <;> simp

theorem initialSimplex_length (f : Objective) (x0 : List ℚ) (options : Options) :
    (initialSimplex f x0 options).Points.length = x0.length + 1 := by
  unfold initialSimplex
  rw [sortSimplex_length, evalAll_length, createSimplex_length]

theorem seqState_zero (f : Objective) (x0 : List ℚ) (options : Options) :
    seqState f x0 options 0 = initialSimplex f x0 options := rfl

theorem seqState_succ (f : Objective) (x0 : List ℚ) (options : Options) (k : Nat) :
    seqState f x0 options (k + 1) = nmStep f options x0.length (seqState f x0 options k) := by
  unfold seqState
  rw [Function.iterate_succ_apply']

theorem seqState_length (f : Objective) (x0 : List ℚ) (options : Options) (k : Nat) :
    (seqState f x0 options k).Points.length = x0.length + 1 := by
  induction k with
  | zero => exact initialSimplex_length f x0 options
  | succ k ih => rw [seqState_succ, nmStep_length, ih]

/-! ### Head preservation: the best vertex survives the decision phase -/

theorem replacePoint_head (s : Simplex) (hd : Point) (t : List Point)
    (hs : s.Points = hd :: t) (j : Nat) (p : Point) :
    ∃ t2, (replacePoint s (j + 1) p).Points = hd :: t2 ∧ t2.length = t.length := by
  refine ⟨t.set j ⟨p.X, p.F⟩, ?_, by simp⟩
  simp [replacePoint, hs]

theorem shrinkSimplex_head (s : Simplex) (hd : Point) (t : List Point)
    (hs : s.Points = hd :: t) (d : ℚ) :
    ∃ t2, (shrinkSimplex s d).Points = hd :: t2 ∧ t2.length = t.length := by
  obtain ⟨ps⟩ := s
  simp only at hs
  subst hs
  exact ⟨t.map fun p =>
      { p with X := (hd.X.zip p.X).map fun bp => bp.1 + d * (bp.2 - bp.1) },
    by simp [shrinkSimplex], by simp⟩

theorem expansionPhase_head (f : Objective) (options : Options) (centroid : List ℚ)
    (j : Nat) (r : Point) (s : Simplex) (hd : Point) (t : List Point)
    (hs : s.Points = hd :: t) :
    ∃ t2, (expansionPhase f options centroid (j + 1) r s).Points = hd :: t2 ∧
      t2.length = t.length := by
  unfold expansionPhase
  dsimp only
  split
  · exact replacePoint_head s hd t hs j _
  · exact replacePoint_head s hd t hs j _

theorem contractionPhase_head (f : Objective) (options : Options) (centroid : List ℚ)
    (j : Nat) (r : Point) (s : Simplex) (hd : Point) (t : List Point)
    (hs : s.Points = hd :: t) :
    ∃ t2, (contractionPhase f options centroid (j + 1) r s).Points = hd :: t2 ∧
      t2.length = t.length := by
  unfold contractionPhase
  dsimp only
  split
  · obtain ⟨t1, ht1, hlen1⟩ := replacePoint_head s hd t hs j r
    have h2 : (replacePoint s (j + 1) r).Points = hd :: t1 := ht1
    split
    · obtain ⟨t2, ht2, hlen2⟩ := replacePoint_head _ hd t1 h2 j _
      exact ⟨t2, ht2, by omega⟩
    · obtain ⟨t2, ht2, hlen2⟩ := shrinkSimplex_head _ hd t1 h2 options.Delta
      exact ⟨t2, ht2, by omega⟩
  · split
    · exact replacePoint_head s hd t hs j _
    · exact shrinkSimplex_head s hd t hs options.Delta

theorem decisionStep_head (f : Objective) (options : Options) (n : Nat) (s : Simplex)
    (hd : Point) (t : List Point) (hs : s.Points = hd :: t) (ht : t ≠ []) :
    ∃ t2, (decisionStep f options n s).Points = hd :: t2 ∧ t2.length = t.length := by
  have hlast : s.Points.length - 1 = (t.length - 1) + 1 := by
    rw [hs]
    simp only [List.length_cons]
    have := List.length_pos.mpr ht
    omega
  unfold decisionStep
  dsimp only
  rw [hlast]
  split
  · exact expansionPhase_head f options _ _ _ s hd t hs
  · exact contractionPhase_head f options _ _ _ s hd t hs

/-! ### The cached-value invariant after re-evaluation -/

/-- Every vertex carries the objective value of its own coordinates. -/
def FInv (f : Objective) (s : Simplex) : Prop := ∀ p ∈ s.Points, p.F = f p.X

theorem FInv_evalAll (f : Objective) (s : Simplex) : FInv f (evalAll f s) := by
  intro p hp
  simp only [evalAll, List.mem_map] at hp
  obtain ⟨q, hq, rfl⟩ := hp
  rfl

theorem FInv_sortSimplex (f : Objective) (s : Simplex) (h : FInv f s) :
    FInv f (sortSimplex s) := by
  intro p hp
  exact h _ ((sortSimplex_perm s).mem_iff.mp hp)

theorem clampBest_of_nil (options : Options) (s : Simplex)
    (h : options.Constraints = []) : clampBest options s = s := by
  simp [clampBest, h]

theorem FInv_initialSimplex (f : Objective) (x0 : List ℚ) (options : Options) :
    FInv f (initialSimplex f x0 options) :=
  FInv_sortSimplex f _ (FInv_evalAll f _)

theorem FInv_nmStep (f : Objective) (options : Options) (n : Nat) (s : Simplex)
    (hcs : options.Constraints = []) (h : FInv f s) : FInv f (nmStep f options n s) := by
  unfold nmStep runIteration
  split
  · exact h
  · dsimp only
    rw [clampBest_of_nil options _ hcs]
    exact FInv_sortSimplex f _ (FInv_evalAll f _)

theorem FInv_seqState (f : Objective) (x0 : List ℚ) (options : Options)
    (hcs : options.Constraints = []) (k : Nat) : FInv f (seqState f x0 options k) := by
  induction k with
  | zero => exact FInv_initialSimplex f x0 options
  | succ k ih => rw [seqState_succ]; exact FInv_nmStep f options _ _ hcs ih

/-! ### The head of the sorted simplex has minimal value -/

theorem sortSimplex_head_le (s : Simplex) (p : Point) (hp : p ∈ s.Points) :
    ((sortSimplex s).Points.headD default).F ≤ p.F := by
  have hsorted : List.Sorted pointLE (sortSimplex s).Points :=
    List.sorted_insertionSort pointLE s.Points
  have hp2 : p ∈ (sortSimplex s).Points := (sortSimplex_perm s).mem_iff.mpr hp
  cases h : (sortSimplex s).Points with
  | nil => rw [h] at hp2; cases hp2
  | cons a l =>
    rw [h] at hsorted hp2
    rw [List.headD_cons]
    rcases List.mem_cons.mp hp2 with rfl | hm
    · exact le_refl _
    · exact List.rel_of_sorted_cons hsorted _ hm

/-! ### Facts extracted from successful validation -/

theorem validateConstraintList_eq_none (cs : List Constraint) :
    validateConstraintList cs = none ↔ ∀ c ∈ cs, c.Min < c.Max := by
  induction cs with
  | nil => simp [validateConstraintList]
  | cons c rest ih =>
    unfold validateConstraintList Constraint.validate
    constructor
    · intro h
      split_ifs at h with h1 h2
      intro d hd
      rcases List.mem_cons.mp hd with rfl | hm
      · rcases lt_trichotomy d.Min d.Max with hlt | heq | hgt
        · exact hlt
        · exact absurd heq h2
        · exact absurd hgt (by simpa using h1)
      · exact (ih.mp h) d hm
    · intro h
      have hc : c.Min < c.Max := h c (by simp)
      rw [if_neg (by push_neg; exact le_of_lt hc), if_neg (ne_of_lt hc)]
      exact ih.mpr fun d hd => h d (by simp [hd])

theorem validate_tolerance_pos (options : Options) (h : options.validate = none) :
    0 < options.Tolerance := by
  unfold Options.validate at h
  split_ifs at h with h1 h2 h3 h4 h5 h6
  push_neg at h5
  exact h5

theorem validate_maxIterations_pos (options : Options) (h : options.validate = none) :
    0 < options.MaxIterations := by
  unfold Options.validate at h
  split_ifs at h with h1 h2 h3 h4 h5 h6
  push_neg at h6
  exact h6

theorem validate_constraints_lt (options : Options) (h : options.validate = none) :
    ∀ c ∈ options.Constraints, c.Min < c.Max := by
  unfold Options.validate at h
  split_ifs at h with h1 h2 h3 h4 h5 h6
  exact (validateConstraintList_eq_none options.Constraints).mp h

theorem validateX0_length (options : Options) (x0 : List ℚ)
    (h : options.validateX0 x0 = none) (hne : options.Constraints ≠ []) :
    options.Constraints.length = x0.length := by
  unfold Options.validateX0 at h
  by_contra hneq
  rw [if_pos ⟨by simpa using hne, hneq⟩] at h
  cases h

/-! ### Monotonicity of the best value over one unconstrained iteration -/

theorem bestF_nmStep_le (f : Objective) (options : Options) (n : Nat) (s : Simplex)
    (hcs : options.Constraints = []) (htol : 0 < options.Tolerance)
    (hF : FInv f s) :
    bestF (nmStep f options n s) ≤ bestF s := by
  by_cases hmet : toleranceMet options s = true
  · rw [nmStep_of_met f options n s hmet]
  · have hmet2 : toleranceMet options s = false := by simpa using hmet
    have h2 : 2 ≤ s.Points.length := length_points_of_not_met options s htol hmet2
    obtain ⟨hd, t, hs⟩ : ∃ hd t, s.Points = hd :: t := by
      cases hps : s.Points with
      | nil => rw [hps] at h2; simp at h2
      | cons a l => exact ⟨a, l, rfl⟩
    have ht : t ≠ [] := by
      intro h0
      rw [hs, h0] at h2
      simp at h2
    obtain ⟨t2, hds, _⟩ := decisionStep_head f options n s hd t hs ht
    have hstep : nmStep f options n s =
        sortSimplex (evalAll f (decisionStep f options n s)) := by
      unfold nmStep
      rw [runIteration_of_not_met f options n s hmet2]
      exact clampBest_of_nil options _ hcs
    have hmem : (⟨hd.X, f hd.X⟩ : Point) ∈ (evalAll f (decisionStep f options n s)).Points := by
      simp [evalAll, hds]
    have hle := sortSimplex_head_le (evalAll f (decisionStep f options n s)) _ hmem
    rw [hstep]
    unfold bestF
    calc ((sortSimplex (evalAll f (decisionStep f options n s))).Points.headD default).F
        ≤ (⟨hd.X, f hd.X⟩ : Point).F := hle
      _ = hd.F := (hF hd (by rw [hs]; exact List.mem_cons_self hd t)).symm
      _ = (s.Points.headD default).F := by rw [hs, List.headD_cons]

/-! ### The box-constraint invariant on the best vertex -/

/-- Every coordinate of `x` lies within the `[Min, Max]` interval of its
dimension. -/
def inBounds (x : List ℚ) (cs : List Constraint) : Prop :=
  ∀ i < x.length,
    (cs.getD i default).Min ≤ x.getD i 0 ∧ x.getD i 0 ≤ (cs.getD i default).Max

theorem ensureX_inBounds (x : List ℚ) (cs : List Constraint)
    (hlt : ∀ c ∈ cs, c.Min ≤ c.Max) :
    inBounds (ensureXAreInConstraintBounds x cs) cs := by
  induction x generalizing cs with
  | nil => intro i hi; simp [ensureXAreInConstraintBounds] at hi
  | cons a x ih =>
    cases cs with
    | nil => intro i hi; simp [ensureXAreInConstraintBounds] at hi
    | cons c cs =>
      have hc : c.Min ≤ c.Max := hlt c (by simp)
      intro i hi
      match i with
      | 0 =>
        simp only [ensureXAreInConstraintBounds, List.zip_cons_cons, List.map_cons,
          List.getD_cons_zero]
        constructor <;> split_ifs <;> first | rfl | linarith
      | j + 1 =>
        simp only [ensureXAreInConstraintBounds, List.zip_cons_cons, List.map_cons,
          List.length_cons, Nat.add_lt_add_iff_right] at hi ⊢
        simp only [List.getD_cons_succ]
        exact ih cs (fun d hd => hlt d (by simp [hd])) j hi

/-- The best vertex lies within bounds. -/
def bestInBounds (s : Simplex) (cs : List Constraint) : Prop :=
  inBounds (s.Points.headD default).X cs

/-- Every vertex lies within bounds. -/
def allInBounds (s : Simplex) (cs : List Constraint) : Prop :=
  ∀ p ∈ s.Points, inBounds p.X cs

theorem createSimplex_allInBounds (x : List ℚ) (n : Nat) (cs : List Constraint)
    (hne : cs ≠ []) (hlt : ∀ c ∈ cs, c.Min ≤ c.Max) :
    allInBounds (createSimplex x n cs) cs := by
  unfold createSimplex
  rw [if_pos (by simpa [List.length_pos] using hne)]
  intro p hp
  simp only [List.mem_map] at hp
  obtain ⟨q, _, rfl⟩ := hp
  exact ensureX_inBounds q.X cs hlt

theorem allInBounds_evalAll (f : Objective) (s : Simplex) (cs : List Constraint)
    (h : allInBounds s cs) : allInBounds (evalAll f s) cs := by
  intro p hp
  simp only [evalAll, List.mem_map] at hp
  obtain ⟨q, hq, rfl⟩ := hp
  exact h q hq

theorem allInBounds_sortSimplex (s : Simplex) (cs : List Constraint)
    (h : allInBounds s cs) : allInBounds (sortSimplex s) cs := by
  intro p hp
  exact h _ ((sortSimplex_perm s).mem_iff.mp hp)

theorem bestInBounds_of_all (s : Simplex) (cs : List Constraint)
    (hne : s.Points ≠ []) (h : allInBounds s cs) : bestInBounds s cs := by
  unfold bestInBounds
  cases hps : s.Points with
  | nil => exact absurd hps hne
  | cons a l =>
    rw [List.headD_cons]
    exact h a (by rw [hps]; exact List.mem_cons_self a l)

theorem bestInBounds_initialSimplex (f : Objective) (x0 : List ℚ) (options : Options)
    (hne : options.Constraints ≠ [])
    (hlt : ∀ c ∈ options.Constraints, c.Min ≤ c.Max) :
    bestInBounds (initialSimplex f x0 options) options.Constraints := by
  apply bestInBounds_of_all
  · have := initialSimplex_length f x0 options
    intro h0
    rw [h0] at this
    simp at this
  · exact allInBounds_sortSimplex _ _
      (allInBounds_evalAll f _ _
        (createSimplex_allInBounds x0 x0.length options.Constraints hne hlt))

theorem clampBest_bestInBounds (options : Options) (s : Simplex)
    (hne : options.Constraints ≠ [])
    (hlt : ∀ c ∈ options.Constraints, c.Min ≤ c.Max)
    (hs : s.Points ≠ []) :
    bestInBounds (clampBest options s) options.Constraints := by
  unfold clampBest
  rw [if_pos (by simpa [List.length_pos] using hne)]
  obtain ⟨ps⟩ := s
  match ps with
  | [] => exact absurd rfl hs
  | b :: rest =>
    unfold bestInBounds
    simp only [List.headD_cons]
    exact ensureX_inBounds b.X options.Constraints hlt

theorem bestInBounds_nmStep (f : Objective) (options : Options) (n : Nat) (s : Simplex)
    (hne : options.Constraints ≠ [])
    (hlt : ∀ c ∈ options.Constraints, c.Min ≤ c.Max)
    (hs : s.Points ≠ []) (hb : bestInBounds s options.Constraints) :
    bestInBounds (nmStep f options n s) options.Constraints := by
  unfold nmStep runIteration
  split
  · exact hb
  · dsimp only
    apply clampBest_bestInBounds options _ hne hlt
    intro h0
    have h1 : (sortSimplex (evalAll f (decisionStep f options n s))).Points.length = 0 := by
      rw [h0]; rfl
    rw [sortSimplex_length, evalAll_length, decisionStep_length] at h1
    exact hs (List.length_eq_zero.mp h1)

theorem bestInBounds_seqState (f : Objective) (x0 : List ℚ) (options : Options)
    (hne : options.Constraints ≠ [])
    (hlt : ∀ c ∈ options.Constraints, c.Min ≤ c.Max) (k : Nat) :
    bestInBounds (seqState f x0 options k) options.Constraints := by
  induction k with
  | zero => exact bestInBounds_initialSimplex f x0 options hne hlt
  | succ k ih =>
    rw [seqState_succ]
    apply bestInBounds_nmStep f options _ _ hne hlt _ ih
    have := seqState_length f x0 options k
    intro h0
    rw [h0] at this
    simp at this

/-! ### Behaviour of the iteration loop -/

theorem nmStep_points_ne_nil (f : Objective) (options : Options) (n : Nat) (s : Simplex)
    (hs : s.Points ≠ []) : (nmStep f options n s).Points ≠ [] := by
  intro h0
  have h1 : (nmStep f options n s).Points.length = 0 := by rw [h0]; rfl
  rw [nmStep_length] at h1
  exact hs (List.length_eq_zero.mp h1)

theorem RunLoop_succ_collapse (sqrtFn : ℚ → ℚ) (f : Objective) (options : Options)
    (n fuel : Nat) (s : Simplex)
    (hcol : (nmStep f options n s).isCollapsed sqrtFn options.CollapseThreshold = true) :
    RunLoop sqrtFn f options n (fuel + 1) s = (⟨[], 0⟩, some .simplexCollapse) := by
  unfold nmStep at hcol
  unfold RunLoop
  simp only [hcol, if_true]

theorem RunLoop_succ_done (sqrtFn : ℚ → ℚ) (f : Objective) (options : Options)
    (n fuel : Nat) (s : Simplex)
    (hcol : (nmStep f options n s).isCollapsed sqrtFn options.CollapseThreshold = false)
    (hdone : nmDone f options n s = true) :
    RunLoop sqrtFn f options n (fuel + 1) s =
      ((nmStep f options n s).Points.headD default, none) := by
  unfold nmStep at hcol ⊢
  unfold nmDone at hdone
  unfold RunLoop
  simp only [hcol, hdone, Bool.false_eq_true, if_false, if_true]

theorem RunLoop_succ_advance (sqrtFn : ℚ → ℚ) (f : Objective) (options : Options)
    (n fuel : Nat) (s : Simplex)
    (hcol : (nmStep f options n s).isCollapsed sqrtFn options.CollapseThreshold = false)
    (hdone : nmDone f options n s = false) :
    RunLoop sqrtFn f options n (fuel + 1) s =
      RunLoop sqrtFn f options n fuel (nmStep f options n s) := by
  unfold nmStep at hcol ⊢
  unfold nmDone at hdone
  conv_lhs => rw [RunLoop]
  simp only [hcol, hdone, Bool.false_eq_true, if_false, if_true]

theorem RunLoop_error_eq_collapse (sqrtFn : ℚ → ℚ) (f : Objective) (options : Options)
    (n : Nat) : ∀ (fuel : Nat) (s : Simplex),
    (RunLoop sqrtFn f options n fuel s).2 ≠ none →
    RunLoop sqrtFn f options n fuel s = (⟨[], 0⟩, some .simplexCollapse) := by
  intro fuel
  induction fuel with
  | zero => intro s h; exact absurd rfl h
  | succ fuel ih =>
    intro s h
    by_cases hcol :
        (nmStep f options n s).isCollapsed sqrtFn options.CollapseThreshold = true
    · exact RunLoop_succ_collapse sqrtFn f options n fuel s hcol
    · have hcol2 :
          (nmStep f options n s).isCollapsed sqrtFn options.CollapseThreshold = false := by
        simpa using hcol
      by_cases hdone : nmDone f options n s = true
      · rw [RunLoop_succ_done sqrtFn f options n fuel s hcol2 hdone] at h
        exact absurd rfl h
      · have hdone2 : nmDone f options n s = false := by simpa using hdone
        rw [RunLoop_succ_advance sqrtFn f options n fuel s hcol2 hdone2] at h ⊢
        exact ih _ h

theorem RunLoop_exhaust (sqrtFn : ℚ → ℚ) (f : Objective) (options : Options) (n : Nat) :
    ∀ (fuel : Nat) (s : Simplex),
    (∀ k < fuel, nmDone f options n ((nmStep f options n)^[k] s) = false ∧
      ((nmStep f options n)^[k + 1] s).isCollapsed sqrtFn options.CollapseThreshold = false) →
    RunLoop sqrtFn f options n fuel s =
      (((nmStep f options n)^[fuel] s).Points.headD default, none) := by
  intro fuel
  induction fuel with
  | zero =>
    intro s _
    rw [Function.iterate_zero_apply]
    rfl
  | succ fuel ih =>
    intro s h
    obtain ⟨hd0, hc0⟩ := h 0 (Nat.succ_pos fuel)
    rw [Function.iterate_zero_apply] at hd0
    rw [zero_add, Function.iterate_one] at hc0
    rw [RunLoop_succ_advance sqrtFn f options n fuel s hc0 hd0]
    rw [ih (nmStep f options n s) ?_]
    · rw [← Function.iterate_succ_apply]
    · intro k hk
      obtain ⟨h1, h2⟩ := h (k + 1) (by omega)
      rw [Function.iterate_succ_apply] at h1
      rw [Function.iterate_succ_apply] at h2
      exact ⟨h1, h2⟩

theorem RunLoop_collapse_iff (sqrtFn : ℚ → ℚ) (f : Objective) (options : Options) (n : Nat) :
    ∀ (fuel : Nat) (s : Simplex),
    (RunLoop sqrtFn f options n fuel s).2 = some Err.simplexCollapse ↔
    ∃ k < fuel, (∀ j < k, nmDone f options n ((nmStep f options n)^[j] s) = false ∧
        ((nmStep f options n)^[j + 1] s).isCollapsed sqrtFn options.CollapseThreshold = false) ∧
      ((nmStep f options n)^[k + 1] s).isCollapsed sqrtFn options.CollapseThreshold = true := by
  intro fuel
  induction fuel with
  | zero =>
    intro s
    constructor
    · intro h
      cases h
    · rintro ⟨k, hk, -, -⟩
      cases hk
  | succ fuel ih =>
    intro s
    by_cases hcol :
        (nmStep f options n s).isCollapsed sqrtFn options.CollapseThreshold = true
    · apply iff_of_true
      · rw [RunLoop_succ_collapse sqrtFn f options n fuel s hcol]
      · refine ⟨0, Nat.succ_pos fuel, fun j hj => absurd hj (by omega), ?_⟩
        rw [zero_add, Function.iterate_one]
        exact hcol
    · have hcol2 :
          (nmStep f options n s).isCollapsed sqrtFn options.CollapseThreshold = false := by
        simpa using hcol
      by_cases hdone : nmDone f options n s = true
      · apply iff_of_false
        · rw [RunLoop_succ_done sqrtFn f options n fuel s hcol2 hdone]
          intro h
          cases h
        · rintro ⟨k, hk, hall, hcolk⟩
          match k with
          | 0 =>
            rw [zero_add, Function.iterate_one] at hcolk
            rw [hcolk] at hcol2
            cases hcol2
          | j + 1 =>
            obtain ⟨h1, -⟩ := hall 0 (Nat.succ_pos j)
            rw [Function.iterate_zero_apply] at h1
            rw [h1] at hdone
            cases hdone
      · have hdone2 : nmDone f options n s = false := by simpa using hdone
        rw [RunLoop_succ_advance sqrtFn f options n fuel s hcol2 hdone2]
        rw [ih (nmStep f options n s)]
        constructor
        · rintro ⟨k, hk, hall, hcolk⟩
          refine ⟨k + 1, by omega, ?_, ?_⟩
          · intro j hj
            match j with
            | 0 =>
              refine ⟨by rw [Function.iterate_zero_apply]; exact hdone2, ?_⟩
              rw [zero_add, Function.iterate_one]
              exact hcol2
            | i + 1 =>
              obtain ⟨h1, h2⟩ := hall i (by omega)
              rw [← Function.iterate_succ_apply] at h1
              rw [← Function.iterate_succ_apply] at h2
              exact ⟨h1, h2⟩
          · rw [← Function.iterate_succ_apply] at hcolk
            exact hcolk
        · rintro ⟨k, hk, hall, hcolk⟩
          match k with
          | 0 =>
            rw [zero_add, Function.iterate_one] at hcolk
            rw [hcolk] at hcol2
            cases hcol2
          | i + 1 =>
            refine ⟨i, by omega, ?_, ?_⟩
            · intro j hj
              obtain ⟨h1, h2⟩ := hall (j + 1) (by omega)
              rw [Function.iterate_succ_apply] at h1
              rw [Function.iterate_succ_apply] at h2
              exact ⟨h1, h2⟩
            · rw [Function.iterate_succ_apply] at hcolk
              exact hcolk

theorem RunLoop_ok_inBounds (sqrtFn : ℚ → ℚ) (f : Objective) (options : Options) (n : Nat)
    (hne : options.Constraints ≠ [])
    (hlt : ∀ c ∈ options.Constraints, c.Min ≤ c.Max) :
    ∀ (fuel : Nat) (s : Simplex), s.Points ≠ [] → bestInBounds s options.Constraints →
      ∀ p, RunLoop sqrtFn f options n fuel s = (p, none) →
        inBounds p.X options.Constraints := by
  intro fuel
  induction fuel with
  | zero =>
    intro s _ hb p hp
    unfold RunLoop at hp
    injection hp with h1 _
    rw [← h1]
    exact hb
  | succ fuel ih =>
    intro s hs hb p hp
    by_cases hcol :
        (nmStep f options n s).isCollapsed sqrtFn options.CollapseThreshold = true
    · rw [RunLoop_succ_collapse sqrtFn f options n fuel s hcol] at hp
      injection hp with _ h2
      cases h2
    · have hcol2 :
          (nmStep f options n s).isCollapsed sqrtFn options.CollapseThreshold = false := by
        simpa using hcol
      by_cases hdone : nmDone f options n s = true
      · rw [RunLoop_succ_done sqrtFn f options n fuel s hcol2 hdone] at hp
        injection hp with h1 _
        rw [← h1]
        have hmet : toleranceMet options s = true :=
          (nmDone_eq_toleranceMet f options n s) ▸ hdone
        rw [nmStep_of_met f options n s hmet]
        exact hb
      · have hdone2 : nmDone f options n s = false := by simpa using hdone
        rw [RunLoop_succ_advance sqrtFn f options n fuel s hcol2 hdone2] at hp
        exact ih (nmStep f options n s) (nmStep_points_ne_nil f options n s hs)
          (bestInBounds_nmStep f options n s hne hlt hs hb) p hp

theorem headD_mem (l : List Point) (hne : l ≠ []) : l.headD default ∈ l := by
  cases l with
  | nil => exact absurd rfl hne
  | cons a t => rw [List.headD_cons]; exact List.mem_cons_self a t

theorem RunLoop_ok_FInv (sqrtFn : ℚ → ℚ) (f : Objective) (options : Options) (n : Nat)
    (hcs : options.Constraints = []) :
    ∀ (fuel : Nat) (s : Simplex), s.Points ≠ [] → FInv f s →
      ∀ p, RunLoop sqrtFn f options n fuel s = (p, none) → p.F = f p.X := by
  intro fuel
  induction fuel with
  | zero =>
    intro s hs hF p hp
    unfold RunLoop at hp
    injection hp with h1 _
    rw [← h1]
    exact hF _ (headD_mem s.Points hs)
  | succ fuel ih =>
    intro s hs hF p hp
    by_cases hcol :
        (nmStep f options n s).isCollapsed sqrtFn options.CollapseThreshold = true
    · rw [RunLoop_succ_collapse sqrtFn f options n fuel s hcol] at hp
      injection hp with _ h2
      cases h2
    · have hcol2 :
          (nmStep f options n s).isCollapsed sqrtFn options.CollapseThreshold = false := by
        simpa using hcol
      by_cases hdone : nmDone f options n s = true
      · rw [RunLoop_succ_done sqrtFn f options n fuel s hcol2 hdone] at hp
        injection hp with h1 _
        rw [← h1]
        exact FInv_nmStep f options n s hcs hF _
          (headD_mem _ (nmStep_points_ne_nil f options n s hs))
      · have hdone2 : nmDone f options n s = false := by simpa using hdone
        rw [RunLoop_succ_advance sqrtFn f options n fuel s hcol2 hdone2] at hp
        exact ih (nmStep f options n s) (nmStep_points_ne_nil f options n s hs)
          (FInv_nmStep f options n s hcs hF) p hp

theorem RunLoop_advance_many (sqrtFn : ℚ → ℚ) (f : Objective) (options : Options) (n : Nat) :
    ∀ (k fuel : Nat) (s : Simplex), k ≤ fuel →
    (∀ j < k, nmDone f options n ((nmStep f options n)^[j] s) = false ∧
      ((nmStep f options n)^[j + 1] s).isCollapsed sqrtFn options.CollapseThreshold = false) →
    RunLoop sqrtFn f options n fuel s =
      RunLoop sqrtFn f options n (fuel - k) ((nmStep f options n)^[k] s) := by
  intro k
  induction k with
  | zero =>
    intro fuel s _ _
    rw [Function.iterate_zero_apply, Nat.sub_zero]
  | succ k ih =>
    intro fuel s hk h
    obtain ⟨hd0, hc0⟩ := h 0 (Nat.succ_pos k)
    rw [Function.iterate_zero_apply] at hd0
    rw [zero_add, Function.iterate_one] at hc0
    obtain ⟨m, rfl⟩ : ∃ m, fuel = m + 1 := ⟨fuel - 1, by omega⟩
    rw [RunLoop_succ_advance sqrtFn f options n m s hc0 hd0]
    rw [ih m (nmStep f options n s) (by omega) ?_]
    · rw [← Function.iterate_succ_apply]
      congr 1
      omega
    · intro j hj
      obtain ⟨h1, h2⟩ := h (j + 1) (by omega)
      rw [Function.iterate_succ_apply] at h1
      rw [Function.iterate_succ_apply] at h2
      exact ⟨h1, h2⟩

theorem Run_eq_loop (sqrtFn : ℚ → ℚ) (f : Objective) (x0 : List ℚ) (options : Options)
    (hv : options.validate = none) (hvx : options.validateX0 x0 = none) :
    Run sqrtFn f x0 options =
      RunLoop sqrtFn f options x0.length options.MaxIterations.toNat
        (initialSimplex f x0 options) := by
  unfold Run
  rw [hv, hvx]

theorem initialSimplex_points_ne_nil (f : Objective) (x0 : List ℚ) (options : Options) :
    (initialSimplex f x0 options).Points ≠ [] := by
  intro h0
  have h1 := initialSimplex_length f x0 options
  rw [h0] at h1
  simp at h1

theorem seqState_points_ne_nil (f : Objective) (x0 : List ℚ) (options : Options) (k : Nat) :
    (seqState f x0 options k).Points ≠ [] := by
  intro h0
  have h1 := seqState_length f x0 options k
  rw [h0] at h1
  simp at h1

/-! ### Collapse-detection facts -/

theorem isCollapsed_of_zero (sqrtFn : ℚ → ℚ) (s : Simplex) :
    s.isCollapsed sqrtFn 0 = false := by
  simp [Simplex.isCollapsed]

theorem distance_nonneg (sqrtFn : ℚ → ℚ) (hsq : ∀ q, 0 ≤ q → 0 ≤ sqrtFn q)
    (x y : List ℚ) : 0 ≤ distance sqrtFn x y := by
  apply hsq
  apply List.sum_nonneg
  intro a ha
  simp only [List.mem_map] at ha
  obtain ⟨p, -, rfl⟩ := ha
  exact mul_self_nonneg _

theorem pairDistances_mem (sqrtFn : ℚ → ℚ) :
    ∀ (l : List Point) (d : ℚ), d ∈ pairDistances sqrtFn l →
      ∃ x y : List ℚ, d = distance sqrtFn x y := by
  intro l
  induction l with
  | nil => intro d hd; cases hd
  | cons p rest ih =>
    intro d hd
    simp only [pairDistances, List.mem_append, List.mem_map] at hd
    rcases hd with ⟨q, -, rfl⟩ | hd
    · exact ⟨p.X, q.X, rfl⟩
    · exact ih d hd

theorem averageEdgeLength_nonneg (sqrtFn : ℚ → ℚ) (hsq : ∀ q, 0 ≤ q → 0 ≤ sqrtFn q)
    (s : Simplex) : 0 ≤ s.averageEdgeLength sqrtFn := by
  unfold Simplex.averageEdgeLength
  apply div_nonneg
  · apply List.sum_nonneg
    intro d hd
    obtain ⟨x, y, rfl⟩ := pairDistances_mem sqrtFn s.Points d hd
    exact distance_nonneg sqrtFn hsq x y
  · positivity

theorem isCollapsed_facts (sqrtFn : ℚ → ℚ) (s : Simplex) (threshold : ℚ)
    (h : s.isCollapsed sqrtFn threshold = true) :
    threshold ≠ 0 ∧ (pairDistances sqrtFn s.Points).length ≠ 0 ∧
      s.averageEdgeLength sqrtFn < threshold := by
  unfold Simplex.isCollapsed at h
  split_ifs at h with h1 h2
  exact ⟨h1, h2, of_decide_eq_true h⟩

theorem isCollapsed_pos (sqrtFn : ℚ → ℚ) (hsq : ∀ q, 0 ≤ q → 0 ≤ sqrtFn q)
    (s : Simplex) (threshold : ℚ) (h : s.isCollapsed sqrtFn threshold = true) :
    0 < threshold := by
  obtain ⟨-, -, hlt⟩ := isCollapsed_facts sqrtFn s threshold h
  exact lt_of_le_of_lt (averageEdgeLength_nonneg sqrtFn hsq s) hlt

theorem seqState_def (f : Objective) (x0 : List ℚ) (options : Options) (k : Nat) :
    seqState f x0 options k =
      (nmStep f options x0.length)^[k] (initialSimplex f x0 options) := rfl

theorem validateX0_of_nil (options : Options) (x0 : List ℚ)
    (hcs : options.Constraints = []) : options.validateX0 x0 = none := by
  simp [Options.validateX0, hcs]

/-! ### Claim theorems -/

/-- Claim C1: in every run whose constraint list is non-empty and valid and
which returns a Point without error, every coordinate of the returned `X`
lies within its dimension's `[Min, Max]`, and after each completed iteration
every coordinate of the current best vertex lies within its bounds. -/
theorem C1_constrained_run_stays_in_bounds (sqrtFn : ℚ → ℚ) (f : Objective)
    (x0 : List ℚ) (options : Options)
    (hv : options.validate = none) (hvx : options.validateX0 x0 = none)
    (hne : options.Constraints ≠ []) :
    (∀ p, Run sqrtFn f x0 options = (p, none) → inBounds p.X options.Constraints) ∧
    (∀ k, bestInBounds (seqState f x0 options k) options.Constraints) := by
  have hlt : ∀ c ∈ options.Constraints, c.Min ≤ c.Max :=
    fun c hc => le_of_lt (validate_constraints_lt options hv c hc)
  constructor
  · intro p hp
    rw [Run_eq_loop sqrtFn f x0 options hv hvx] at hp
    exact RunLoop_ok_inBounds sqrtFn f options x0.length hne hlt
      options.MaxIterations.toNat (initialSimplex f x0 options)
      (initialSimplex_points_ne_nil f x0 options)
      (bestInBounds_initialSimplex f x0 options hne hlt) p hp
  · exact bestInBounds_seqState f x0 options hne hlt

/-- Claim C3 (amended): in every unconstrained valid run that returns a Point
without error, the returned Point satisfies `F = f(X)`.  (With constraints the
claim fails: the per-iteration clamp of the best vertex moves `X` without
re-evaluating `F`; see the counterexample.) -/
theorem C3_amended_unconstrained_F_fresh (sqrtFn : ℚ → ℚ) (f : Objective)
    (x0 : List ℚ) (options : Options)
    (hv : options.validate = none) (hcs : options.Constraints = []) :
    ∀ p, Run sqrtFn f x0 options = (p, none) → p.F = f p.X := by
  intro p hp
  rw [Run_eq_loop sqrtFn f x0 options hv (validateX0_of_nil options x0 hcs)] at hp
  exact RunLoop_ok_FInv sqrtFn f options x0.length hcs
    options.MaxIterations.toNat (initialSimplex f x0 options)
    (initialSimplex_points_ne_nil f x0 options)
    (FInv_initialSimplex f x0 options) p hp

/-- Claim C4 (amended): when the start-of-iteration tolerance check succeeds at
an executed iteration, the run terminates at that iteration; it returns the
current best vertex with nil error only if the collapse check (still performed
at the end of that same iteration) does not fire, and otherwise returns the
SimplexCollapseError with the zero Point. -/
theorem C4_amended_convergence_unless_collapsed (sqrtFn : ℚ → ℚ) (f : Objective)
    (x0 : List ℚ) (options : Options)
    (hv : options.validate = none) (hvx : options.validateX0 x0 = none)
    (k : Nat) (hk : k < options.MaxIterations.toNat)
    (hprev : ∀ j < k, nmDone f options x0.length (seqState f x0 options j) = false ∧
      (seqState f x0 options (j + 1)).isCollapsed sqrtFn options.CollapseThreshold = false)
    (hmet : toleranceMet options (seqState f x0 options k) = true) :
    ((seqState f x0 options k).isCollapsed sqrtFn options.CollapseThreshold = false →
      Run sqrtFn f x0 options =
        ((seqState f x0 options k).Points.headD default, none)) ∧
    ((seqState f x0 options k).isCollapsed sqrtFn options.CollapseThreshold = true →
      Run sqrtFn f x0 options = (⟨[], 0⟩, some .simplexCollapse)) := by
  have hfix : nmStep f options x0.length (seqState f x0 options k) =
      seqState f x0 options k :=
    nmStep_of_met f options x0.length _ hmet
  have hdone : nmDone f options x0.length (seqState f x0 options k) = true :=
    (nmDone_eq_toleranceMet f options x0.length _) ▸ hmet
  have hrun : Run sqrtFn f x0 options =
      RunLoop sqrtFn f options x0.length (options.MaxIterations.toNat - k)
        (seqState f x0 options k) := by
    rw [Run_eq_loop sqrtFn f x0 options hv hvx]
    rw [RunLoop_advance_many sqrtFn f options x0.length k options.MaxIterations.toNat
      (initialSimplex f x0 options) (by omega) ?_]
    · rfl
    · intro j hj
      obtain ⟨h1, h2⟩ := hprev j hj
      rw [seqState_def] at h1 h2
      exact ⟨h1, h2⟩
  obtain ⟨m, hm⟩ : ∃ m, options.MaxIterations.toNat - k = m + 1 :=
    ⟨options.MaxIterations.toNat - k - 1, by omega⟩
  rw [hm] at hrun
  constructor
  · intro hcol
    rw [hrun, RunLoop_succ_done sqrtFn f options x0.length m _ (by rw [hfix]; exact hcol)
      hdone, hfix]
  · intro hcol
    rw [hrun, RunLoop_succ_collapse sqrtFn f options x0.length m _ (by rw [hfix]; exact hcol)]

/-- Claim C6: a validated run returns the SimplexCollapseError exactly when the
threshold is positive and the collapse check fires after some executed
iteration; with threshold 0 the error never occurs; and on this error the
returned Point is the zero Point.  (On a simplex with fewer than two vertices
the Go code compares `NaN < threshold`, which is false; the model's
`isCollapsed` encodes this with its explicit zero-pair guard.) -/
theorem C6_collapse_error_characterisation (sqrtFn : ℚ → ℚ) (f : Objective)
    (x0 : List ℚ) (options : Options)
    (hsq : ∀ q, 0 ≤ q → 0 ≤ sqrtFn q)
    (hv : options.validate = none) (hvx : options.validateX0 x0 = none) :
    ((Run sqrtFn f x0 options).2 = some Err.simplexCollapse ↔
      0 < options.CollapseThreshold ∧
      ∃ k < options.MaxIterations.toNat,
        (∀ j < k, nmDone f options x0.length (seqState f x0 options j) = false ∧
          (seqState f x0 options (j + 1)).isCollapsed sqrtFn
            options.CollapseThreshold = false) ∧
        (seqState f x0 options (k + 1)).isCollapsed sqrtFn
          options.CollapseThreshold = true) ∧
    (options.CollapseThreshold = 0 →
      (Run sqrtFn f x0 options).2 ≠ some Err.simplexCollapse) ∧
    ((Run sqrtFn f x0 options).2 = some Err.simplexCollapse →
      (Run sqrtFn f x0 options).1 = ⟨[], 0⟩) := by
  have hloop := RunLoop_collapse_iff sqrtFn f options x0.length
    options.MaxIterations.toNat (initialSimplex f x0 options)
  rw [Run_eq_loop sqrtFn f x0 options hv hvx]
  simp only [seqState_def]
  refine ⟨?_, ?_, ?_⟩
  · constructor
    · intro h
      obtain ⟨k, hk, hall, hcolk⟩ := hloop.mp h
      exact ⟨isCollapsed_pos sqrtFn hsq _ _ hcolk, k, hk, hall, hcolk⟩
    · rintro ⟨-, k, hk, hall, hcolk⟩
      exact hloop.mpr ⟨k, hk, hall, hcolk⟩
  · intro h0 h
    obtain ⟨k, -, -, hcolk⟩ := hloop.mp h
    rw [h0, isCollapsed_of_zero] at hcolk
    cases hcolk
  · intro h
    have h2 := RunLoop_error_eq_collapse sqrtFn f options x0.length
      options.MaxIterations.toNat (initialSimplex f x0 options) (by rw [h]; intro h3; cases h3)
    rw [h2]

/-- Claim C7: a validated run in which all MaxIterations iterations execute
without meeting the tolerance criterion and without a collapse returns the
current best vertex with nil error. -/
theorem C7_exhaustion_returns_best (sqrtFn : ℚ → ℚ) (f : Objective)
    (x0 : List ℚ) (options : Options)
    (hv : options.validate = none) (hvx : options.validateX0 x0 = none)
    (h : ∀ k < options.MaxIterations.toNat,
      nmDone f options x0.length (seqState f x0 options k) = false ∧
      (seqState f x0 options (k + 1)).isCollapsed sqrtFn
        options.CollapseThreshold = false) :
    Run sqrtFn f x0 options =
      ((seqState f x0 options options.MaxIterations.toNat).Points.headD default,
        none) := by
  rw [Run_eq_loop sqrtFn f x0 options hv hvx]
  rw [seqState_def]
  apply RunLoop_exhaust sqrtFn f options x0.length options.MaxIterations.toNat
    (initialSimplex f x0 options)
  intro k hk
  obtain ⟨h1, h2⟩ := h k hk
  rw [seqState_def] at h1 h2
  exact ⟨h1, h2⟩

/-- Claim C8 (amended): in every unconstrained valid run the best value
`Points[0].F` never increases from one iteration to the next.  (With
constraints the claim fails: clamping the best vertex without re-evaluating
its `F` lets the next re-evaluation raise the best value; see the
counterexample.) -/
theorem C8_amended_unconstrained_bestF_monotone (f : Objective) (x0 : List ℚ)
    (options : Options) (hv : options.validate = none)
    (hcs : options.Constraints = []) (k : Nat) :
    bestF (seqState f x0 options (k + 1)) ≤ bestF (seqState f x0 options k) := by
  rw [seqState_succ]
  exact bestF_nmStep_le f options x0.length _ hcs
    (validate_tolerance_pos options hv) (FInv_seqState f x0 options hcs k)

/-! ### The call-counting instrumentation of `Run`

The specification asks that validation failures be observable through a
call-counting wrapper around the objective.  The following definitions mirror
`Run` exactly while also counting how many times the objective is invoked;
the agreement lemmas below prove that the first component coincides with the
uninstrumented model. -/

def evalAllC (f : Objective) (s : Simplex) : Simplex × Nat :=
  (⟨s.Points.map fun p => { p with F := f p.X }⟩, s.Points.length)

def reflectC (p : Point) (f : Objective) (centroid : List ℚ) (alpha : ℚ) : Point × Nat :=
  (p.reflect f centroid alpha, 1)

def expansionPhaseC (f : Objective) (options : Options) (centroid : List ℚ)
    (lastPointIndex : Nat) (reflectedPoint : Point) (s : Simplex) : Simplex × Nat :=
  let ec := reflectC reflectedPoint f centroid options.Gamma
  (if ec.1.F < reflectedPoint.F then replacePoint s lastPointIndex ec.1
   else replacePoint s lastPointIndex reflectedPoint, ec.2)

def contractionPhaseC (f : Objective) (options : Options) (centroid : List ℚ)
    (lastPointIndex : Nat) (reflectedPoint : Point) (s : Simplex) : Simplex × Nat :=
  let s1 :=
    if reflectedPoint.F < (s.Points.getD lastPointIndex default).F then
      replacePoint s lastPointIndex reflectedPoint
    else s
  let worst1 := s1.Points.getD lastPointIndex default
  let cc := reflectC worst1 f centroid options.Beta
  (if cc.1.F < worst1.F then replacePoint s1 lastPointIndex cc.1
   else shrinkSimplex s1 options.Delta, cc.2)

def decisionStepC (f : Objective) (options : Options) (n : Nat) (s : Simplex) :
    Simplex × Nat :=
  let lastPointIndex := s.Points.length - 1
  let centroid := computeCentroid n s lastPointIndex
  let worst := s.Points.getD lastPointIndex default
  let rc := reflectC worst f centroid options.Alpha
  if rc.1.F < (s.Points.getD (s.Points.length - 2) default).F then
    let e := expansionPhaseC f options centroid lastPointIndex rc.1 s
    (e.1, rc.2 + e.2)
  else
    let c := contractionPhaseC f options centroid lastPointIndex rc.1 s
    (c.1, rc.2 + c.2)

def runIterationC (f : Objective) (options : Options) (n : Nat) (s : Simplex) :
    (Simplex × Bool) × Nat :=
  if toleranceMet options s then ((s, true), 0)
  else
    let d := decisionStepC f options n s
    let e := evalAllC f d.1
    ((clampBest options (sortSimplex e.1), false), d.2 + e.2)

def RunLoopC (sqrtFn : ℚ → ℚ) (f : Objective) (options : Options) (n : Nat) :
    Nat → Simplex → (Point × Option Err) × Nat
  | 0, s => ((s.Points.headD default, none), 0)
  | fuel + 1, s =>
    let r := runIterationC f options n s
    if r.1.1.isCollapsed sqrtFn options.CollapseThreshold then
      ((⟨[], 0⟩, some .simplexCollapse), r.2)
    else if r.1.2 then ((r.1.1.Points.headD default, none), r.2)
    else
      let rest := RunLoopC sqrtFn f options n fuel r.1.1
      (rest.1, r.2 + rest.2)

def RunC (sqrtFn : ℚ → ℚ) (f : Objective) (x0 : List ℚ) (options : Options) :
    (Point × Option Err) × Nat :=
  match options.validate with
  | some msg => ((⟨[], 0⟩, some (.validation msg)), 0)
  | none =>
    match options.validateX0 x0 with
    | some msg => ((⟨[], 0⟩, some (.validation msg)), 0)
    | none =>
      let e := evalAllC f (createSimplex x0 x0.length options.Constraints)
      let r := RunLoopC sqrtFn f options x0.length options.MaxIterations.toNat
        (sortSimplex e.1)
      (r.1, e.2 + r.2)

theorem evalAllC_fst (f : Objective) (s : Simplex) : (evalAllC f s).1 = evalAll f s := rfl

theorem decisionStepC_fst (f : Objective) (options : Options) (n : Nat) (s : Simplex) :
    (decisionStepC f options n s).1 = decisionStep f options n s := by
  unfold decisionStepC decisionStep expansionPhaseC expansionPhase
    contractionPhaseC contractionPhase reflectC
  dsimp only
  split_ifs <;> rfl

theorem runIterationC_fst (f : Objective) (options : Options) (n : Nat) (s : Simplex) :
    (runIterationC f options n s).1 = runIteration f options n s := by
  unfold runIterationC runIteration
  split_ifs
  · rfl
  · dsimp only
    rw [evalAllC_fst, decisionStepC_fst]

theorem RunLoopC_fst (sqrtFn : ℚ → ℚ) (f : Objective) (options : Options) (n : Nat) :
    ∀ (fuel : Nat) (s : Simplex),
    (RunLoopC sqrtFn f options n fuel s).1 = RunLoop sqrtFn f options n fuel s := by
  intro fuel
  induction fuel with
  | zero => intro s; rfl
  | succ fuel ih =>
    intro s
    unfold RunLoopC
    conv_rhs => rw [RunLoop]
    dsimp only
    rw [runIterationC_fst]
    split_ifs <;> simp [ih]

theorem RunC_fst (sqrtFn : ℚ → ℚ) (f : Objective) (x0 : List ℚ) (options : Options) :
    (RunC sqrtFn f x0 options).1 = Run sqrtFn f x0 options := by
  unfold RunC Run
  cases options.validate with
  | some msg => rfl
  | none =>
    cases options.validateX0 x0 with
    | some msg => rfl
    | none =>
      dsimp only
      rw [evalAllC_fst, RunLoopC_fst]
      rfl

theorem validate_none_facts (options : Options) (h : options.validate = none) :
    ¬options.Alpha ≤ 0 ∧ ¬(options.Beta ≤ 0 ∨ 1 ≤ options.Beta) ∧
    ¬options.Gamma ≤ 1 ∧ ¬(options.Delta ≤ 0 ∨ 1 ≤ options.Delta) ∧
    ¬options.Tolerance ≤ 0 ∧ ¬options.MaxIterations ≤ 0 ∧
    ∀ c ∈ options.Constraints, c.Min < c.Max := by
  unfold Options.validate at h
  split_ifs at h with h1 h2 h3 h4 h5 h6
  exact ⟨h1, h2, h3, h4, h5, h6, (validateConstraintList_eq_none options.Constraints).mp h⟩

theorem validateX0_none_facts (options : Options) (x0 : List ℚ)
    (h : options.validateX0 x0 = none) :
    options.Constraints = [] ∨
      (options.Constraints.length = x0.length ∧
        ∀ p ∈ x0.zip options.Constraints, ¬(p.1 < p.2.Min ∨ p.1 > p.2.Max)) := by
  by_cases hcs : options.Constraints = []
  · exact Or.inl hcs
  · right
    have hlen := validateX0_length options x0 h hcs
    refine ⟨hlen, ?_⟩
    unfold Options.validateX0 at h
    rw [if_neg (by rw [hlen]; simp), if_pos (by simpa using hcs)] at h
    intro p hp
    by_contra hviol
    rw [if_pos ?_] at h
    · cases h
    · rw [List.any_eq_true]
      refine ⟨p, hp, ?_⟩
      rcases hviol with h1 | h1 <;> simp [h1]

/-- The validation rules of claim C2, as a predicate on the options and the
initial guess (the NaN/infinity bound rules have no rational counterpart). -/
def violatesValidation (options : Options) (x0 : List ℚ) : Prop :=
  options.Alpha ≤ 0 ∨ options.Beta ≤ 0 ∨ 1 ≤ options.Beta ∨ options.Gamma ≤ 1 ∨
  options.Delta ≤ 0 ∨ 1 ≤ options.Delta ∨ options.Tolerance ≤ 0 ∨
  options.MaxIterations ≤ 0 ∨ (∃ c ∈ options.Constraints, c.Max ≤ c.Min) ∨
  (options.Constraints ≠ [] ∧ options.Constraints.length ≠ x0.length) ∨
  (options.Constraints ≠ [] ∧
    ∃ p ∈ x0.zip options.Constraints, p.1 < p.2.Min ∨ p.1 > p.2.Max)

/-- Claim C2: whenever the options or the initial guess violate a validation
rule, `Run` returns a validation error with the zero Point for every
objective, and the objective is invoked zero times (the instrumented count is
0). -/
theorem C2_validation_fails_before_any_call (sqrtFn : ℚ → ℚ) (x0 : List ℚ)
    (options : Options) (h : violatesValidation options x0) :
    ∃ msg, ∀ f : Objective,
      Run sqrtFn f x0 options = (⟨[], 0⟩, some (.validation msg)) ∧
      (RunC sqrtFn f x0 options).2 = 0 := by
  cases hv : options.validate with
  | some msg =>
    refine ⟨msg, fun f => ⟨?_, ?_⟩⟩
    · unfold Run
      rw [hv]
    · unfold RunC
      rw [hv]
  | none =>
    cases hvx : options.validateX0 x0 with
    | some msg =>
      refine ⟨msg, fun f => ⟨?_, ?_⟩⟩
      · unfold Run
        rw [hv, hvx]
      · unfold RunC
        rw [hv, hvx]
    | none =>
      exfalso
      obtain ⟨h1, h2, h3, h4, h5, h6, h7⟩ := validate_none_facts options hv
      have h8 := validateX0_none_facts options x0 hvx
      unfold violatesValidation at h
      rcases h with hc | hc | hc | hc | hc | hc | hc | hc | ⟨c, hcmem, hcle⟩ |
        ⟨hne, hlen⟩ | ⟨hne, p, hpmem, hpviol⟩
      · exact h1 hc
      · exact h2 (Or.inl hc)
      · exact h2 (Or.inr hc)
      · exact h3 hc
      · exact h4 (Or.inl hc)
      · exact h4 (Or.inr hc)
      · exact h5 hc
      · exact h6 hc
      · exact absurd (h7 c hcmem) (by push_neg; exact hcle)
      · rcases h8 with h8 | ⟨h8, -⟩
        · exact hne h8
        · exact hlen h8
      · rcases h8 with h8 | ⟨-, h8⟩
        · exact hne h8
        · exact h8 p hpmem hpviol

theorem isCollapsed_singleton (sqrtFn : ℚ → ℚ) (threshold : ℚ) (p : Point) :
    Simplex.isCollapsed sqrtFn ⟨[p]⟩ threshold = false := by
  unfold Simplex.isCollapsed
  split_ifs with h1 h2
  · rfl
  · rfl
  · exact absurd (by simp [pairDistances]) h2

/-- Claim C9: a valid run with an empty constraint list and the empty initial
guess evaluates the objective exactly once, the first tolerance check
succeeds, and the run returns `(Point{X: [], F: f([])}, nil)`.  (With one
vertex the Go collapse check compares `NaN < threshold`, which is false, so
the collapse error cannot occur.) -/
theorem C9_empty_guess_total (sqrtFn : ℚ → ℚ) (f : Objective) (options : Options)
    (hv : options.validate = none) (hcs : options.Constraints = []) :
    RunC sqrtFn f [] options = ((⟨[], f []⟩, none), 1) ∧
    Run sqrtFn f [] options = (⟨[], f []⟩, none) := by
  have hvx : options.validateX0 [] = none := validateX0_of_nil options [] hcs
  have htol : 0 < options.Tolerance := validate_tolerance_pos options hv
  obtain ⟨m, hm⟩ : ∃ m, options.MaxIterations.toNat = m + 1 := by
    have := validate_maxIterations_pos options hv
    exact ⟨options.MaxIterations.toNat - 1, by omega⟩
  have e1 : evalAllC f (createSimplex ([] : List ℚ) ([] : List ℚ).length
      options.Constraints) = (⟨[⟨[], f []⟩]⟩, 1) := by
    rw [hcs]
    rfl
  have e3 : toleranceMet options ⟨[⟨[], f []⟩]⟩ = true := by
    simp [toleranceMet, htol]
  have e4 : runIterationC f options ([] : List ℚ).length ⟨[⟨[], f []⟩]⟩ =
      ((⟨[⟨[], f []⟩]⟩, true), 0) := by
    unfold runIterationC
    rw [if_pos e3]
  have hmain : RunC sqrtFn f [] options = ((⟨[], f []⟩, none), 1) := by
    unfold RunC
    rw [hv, hvx]
    dsimp only
    rw [e1]
    dsimp only
    have hsort : sortSimplex ⟨[⟨[], f []⟩]⟩ = ⟨[⟨[], f []⟩]⟩ := rfl
    rw [hsort, hm]
    unfold RunLoopC
    rw [e4]
    dsimp only
    rw [isCollapsed_singleton sqrtFn options.CollapseThreshold ⟨[], f []⟩]
    rfl
  refine ⟨hmain, ?_⟩
  rw [← RunC_fst, hmain]

/-! ### The decision sequence as the specification words it (claim C5) -/

/-- The generic affine step exactly as the specification states it: result
coordinate `j` is `c[j] + k*(c[j] - p[j])`, and the result's value is the
objective at the new coordinates. -/
def specAffine (f : Objective) (c : List ℚ) (k : ℚ) (base : List ℚ) : Point :=
  let X := (List.range c.length).map fun j => c.getD j 0 + k * (c.getD j 0 - base.getD j 0)
  ⟨X, f X⟩

/-- The centroid as the specification words it: the per-coordinate mean of all
vertices except the worst (the last vertex of the sorted simplex). -/
def specCentroid (n : Nat) (s : Simplex) : List ℚ :=
  (List.range n).map fun j =>
    (s.Points.dropLast.map fun p => p.X.getD j 0).sum / ((s.Points.length : ℚ) - 1)

/-- The shrink as the specification words it: every vertex except the best
moves toward the best by factor `delta`. -/
def specShrink (s : Simplex) (delta : ℚ) : Simplex :=
  match s.Points with
  | [] => s
  | best :: rest =>
    ⟨best :: rest.map fun p =>
      { p with X := (List.range best.X.length).map fun j =>
          best.X.getD j 0 + delta * (p.X.getD j 0 - best.X.getD j 0) }⟩

/-- The per-iteration decision sequence exactly as claim C5 words it: reflect
the worst vertex through the centroid with `Alpha`; if the reflected value
beats the second worst, expand with `Gamma` and install whichever of
reflected/expanded has the lower value; otherwise provisionally install the
reflected point if it beats the worst, contract from the now-current worst
with `Beta`, install the contraction if it beats the worst, and otherwise
shrink every non-best vertex toward the best by `Delta`. -/
def specDecisionStep (f : Objective) (options : Options) (n : Nat) (s : Simplex) : Simplex :=
  let worstIndex := s.Points.length - 1
  let c := specCentroid n s
  let worst := s.Points.getD worstIndex default
  let reflected := specAffine f c options.Alpha worst.X
  if reflected.F < (s.Points.getD (s.Points.length - 2) default).F then
    let expanded := specAffine f c options.Gamma reflected.X
    replacePoint s worstIndex (if reflected.F ≤ expanded.F then reflected else expanded)
  else
    let s1 := if reflected.F < worst.F then replacePoint s worstIndex reflected else s
    let worst1 := s1.Points.getD worstIndex default
    let contracted := specAffine f c options.Beta worst1.X
    if contracted.F < worst1.F then replacePoint s1 worstIndex contracted
    else specShrink s1 options.Delta

theorem affine_zip_eq_range (k : ℚ) :
    ∀ (c x : List ℚ), x.length = c.length →
    (c.zip x).map (fun cp => cp.1 + k * (cp.1 - cp.2)) =
      (List.range c.length).map fun j => c.getD j 0 + k * (c.getD j 0 - x.getD j 0) := by
  intro c
  induction c with
  | nil => intro x _; simp
  | cons a c ih =>
    intro x hx
    cases x with
    | nil => simp at hx
    | cons b x =>
      simp only [List.length_cons] at hx
      simp only [List.zip_cons_cons, List.map_cons, List.length_cons,
        List.range_succ_eq_map, List.map_map]
      congr 1
      rw [ih x (by omega)]
      apply List.map_congr_left
      intro j _
      simp [Function.comp]

theorem shrink_zip_eq_range (d : ℚ) :
    ∀ (b x : List ℚ), x.length = b.length →
    (b.zip x).map (fun bp => bp.1 + d * (bp.2 - bp.1)) =
      (List.range b.length).map fun j => b.getD j 0 + d * (x.getD j 0 - b.getD j 0) := by
  intro b
  induction b with
  | nil => intro x _; simp
  | cons a b ih =>
    intro x hx
    cases x with
    | nil => simp at hx
    | cons y x =>
      simp only [List.length_cons] at hx
      simp only [List.zip_cons_cons, List.map_cons, List.length_cons,
        List.range_succ_eq_map, List.map_map]
      congr 1
      rw [ih x (by omega)]
      apply List.map_congr_left
      intro j _
      simp [Function.comp]

theorem specAffine_eq_reflect (f : Objective) (c : List ℚ) (k : ℚ) (p : Point)
    (h : p.X.length = c.length) : specAffine f c k p.X = p.reflect f c k := by
  unfold specAffine Point.reflect
  rw [affine_zip_eq_range k c p.X h]

theorem centroidSum_dropLast (j : Nat) :
    ∀ (l : List Point) (i : Nat), l ≠ [] →
    centroidSum (i + l.length - 1) j i l = (l.dropLast.map fun p => p.X.getD j 0).sum := by
  intro l
  induction l with
  | nil => intro i h; exact absurd rfl h
  | cons p rest ih =>
    intro i _
    cases hr : rest with
    | nil =>
      simp [centroidSum]
    | cons q rest2 =>
      have hne2 : rest ≠ [] := by rw [hr]; intro h0; cases h0
      rw [← hr]
      have hlen : 0 < rest.length := List.length_pos.mpr hne2
      unfold centroidSum
      have hidx : i + (p :: rest).length - 1 = (i + 1) + rest.length - 1 := by
        simp only [List.length_cons]
        omega
      rw [hidx]
      have hneq : i ≠ (i + 1) + rest.length - 1 := by omega
      rw [if_pos hneq]
      rw [ih (i + 1) hne2]
      rw [List.dropLast_cons_of_ne_nil hne2]
      simp

theorem specCentroid_eq (n : Nat) (s : Simplex) (hne : s.Points ≠ []) :
    specCentroid n s = computeCentroid n s (s.Points.length - 1) := by
  unfold specCentroid computeCentroid
  apply List.map_congr_left
  intro j _
  rw [← centroidSum_dropLast j s.Points 0 hne]
  rw [Nat.zero_add]

theorem specShrink_eq (s : Simplex) (delta : ℚ) (n : Nat) (hlen : XLenInv n s) :
    specShrink s delta = shrinkSimplex s delta := by
  obtain ⟨ps⟩ := s
  cases ps with
  | nil => rfl
  | cons best rest =>
    unfold specShrink shrinkSimplex
    simp only [Simplex.mk.injEq, List.cons.injEq, true_and]
    apply List.map_congr_left
    intro p hp
    have hbest : best.X.length = n := hlen best (by simp)
    have hp2 : p.X.length = n := hlen p (by simp [hp])
    rw [shrink_zip_eq_range delta best.X p.X (by omega)]

theorem specDecisionStep_eq (f : Objective) (options : Options) (n : Nat) (s : Simplex)
    (h2 : 2 ≤ s.Points.length) (hlen : XLenInv n s) :
    specDecisionStep f options n s = decisionStep f options n s := by
  have hne : s.Points ≠ [] := by
    intro h0
    rw [h0] at h2
    simp at h2
  have hcent := specCentroid_eq n s hne
  have hclen : (computeCentroid n s (s.Points.length - 1)).length = n :=
    computeCentroid_length n s _
  have hworst : (s.Points.getD (s.Points.length - 1) default).X.length = n :=
    hlen _ (getD_mem _ _ _ (by omega))
  unfold specDecisionStep decisionStep expansionPhase contractionPhase
  dsimp only
  rw [hcent]
  rw [specAffine_eq_reflect f _ options.Alpha _ (by omega)]
  set c := computeCentroid n s (s.Points.length - 1) with hc
  set worst := s.Points.getD (s.Points.length - 1) default with hw
  set reflected := worst.reflect f c options.Alpha with hrefl
  have hreflLen : reflected.X.length = n := by
    rw [hrefl, reflect_X_length, hclen, hworst, Nat.min_self]
  split
  · rw [specAffine_eq_reflect f c options.Gamma reflected (by omega)]
    rcases lt_or_le (reflected.reflect f c options.Gamma).F reflected.F with hlt | hle
    · rw [if_neg (by push_neg; exact hlt), if_pos hlt]
    · rw [if_pos hle, if_neg (by push_neg; exact hle)]
  · set s1 := if reflected.F < worst.F then
        replacePoint s (s.Points.length - 1) reflected else s with hs1
    have hs1len : XLenInv n s1 := by
      rw [hs1]
      split
      · exact XLenInv_replacePoint n s _ reflected hlen hreflLen
      · exact hlen
    have hs1pts : s1.Points.length = s.Points.length := by
      rw [hs1]
      split
      · rw [replacePoint_length]
      · rfl
    have hworst1 : (s1.Points.getD (s.Points.length - 1) default).X.length = n :=
      hs1len _ (getD_mem _ _ _ (by omega))
    rw [specAffine_eq_reflect f c options.Beta _ (by omega)]
    split
    · rfl
    · exact specShrink_eq s1 options.Delta n hs1len

/-- Claim C5: every non-terminal iteration is exactly the specification's
decision sequence (reflect with Alpha; on success over the second worst,
expand with Gamma and keep the lower of reflected/expanded; otherwise
provisionally install an improving reflection, contract with Beta from the
now-current worst, and shrink toward the best with Delta when the contraction
does not improve), followed by the re-evaluation, the sort, and the
best-vertex clamp. -/
theorem C5_decision_sequence (f : Objective) (options : Options) (n : Nat) (s : Simplex)
    (htol : 0 < options.Tolerance) (hmet : toleranceMet options s = false)
    (hlen : XLenInv n s) :
    runIteration f options n s =
      (clampBest options (sortSimplex (evalAll f (specDecisionStep f options n s))),
        false) := by
  have h2 : 2 ≤ s.Points.length := length_points_of_not_met options s htol hmet
  rw [runIteration_of_not_met f options n s hmet]
  rw [specDecisionStep_eq f options n s h2 hlen]

/-! ### Concrete runs used by the counterexamples and witnesses -/

/-- The objective `f(x) = x[0]`. -/
def cexObjective : Objective := fun x => x.headD 0

/-- The constant objective `f(x) = 0`. -/
def cexConstObjective : Objective := fun _ => 0

/-- Valid options: one constraint `[0, 10]`, collapse detection disabled,
one-iteration budget. -/
def cexOptionsMax1 : Options := ⟨1, 1/2, 2, 1/2, 1/1000000, 0, 1, [⟨0, 10⟩]⟩

/-- As `cexOptionsMax1` but with a two-iteration budget. -/
def cexOptionsMax2 : Options := ⟨1, 1/2, 2, 1/2, 1/1000000, 0, 2, [⟨0, 10⟩]⟩

/-- Valid unconstrained options with a one-iteration budget. -/
def cexNoConOptions : Options := ⟨1, 1/2, 2, 1/2, 1/1000000, 0, 1, []⟩

/-- Valid unconstrained options with tolerance 1 and collapse threshold 2. -/
def cexCollapseOptions : Options := ⟨1, 1/2, 2, 1/2, 1, 2, 1, []⟩

/-- As `cexCollapseOptions` but with collapse detection disabled. -/
def cexDoneOptions : Options := ⟨1, 1/2, 2, 1/2, 1, 0, 1, []⟩

theorem cexOptionsMax1_validate : cexOptionsMax1.validate = none := by
  norm_num [Options.validate, validateConstraintList, Constraint.validate, cexOptionsMax1]

theorem cexOptionsMax1_validateX0 : cexOptionsMax1.validateX0 [(0 : ℚ)] = none := by
  norm_num [Options.validateX0, cexOptionsMax1]

theorem cexOptionsMax2_validate : cexOptionsMax2.validate = none := by
  norm_num [Options.validate, validateConstraintList, Constraint.validate, cexOptionsMax2]

theorem cexOptionsMax2_validateX0 : cexOptionsMax2.validateX0 [(0 : ℚ)] = none := by
  norm_num [Options.validateX0, cexOptionsMax2]

theorem cexNoConOptions_validate : cexNoConOptions.validate = none := by
  norm_num [Options.validate, validateConstraintList, cexNoConOptions]

theorem cexCollapseOptions_validate : cexCollapseOptions.validate = none := by
  norm_num [Options.validate, validateConstraintList, cexCollapseOptions]

theorem cexDoneOptions_validate : cexDoneOptions.validate = none := by
  norm_num [Options.validate, validateConstraintList, cexDoneOptions]

theorem cexInitMax1 : initialSimplex cexObjective [(0 : ℚ)] cexOptionsMax1 =
    ⟨[⟨[0], 0⟩, ⟨[1], 1⟩]⟩ := by
  norm_num [initialSimplex, createSimplex, evalAll, sortSimplex, simplexVertex,
    ensureXAreInConstraintBounds, cexOptionsMax1, cexObjective, List.insertionSort,
    List.orderedInsert, pointLE, List.enum, List.enumFrom, List.range_succ]

theorem cexInitMax2 : initialSimplex cexObjective [(0 : ℚ)] cexOptionsMax2 =
    ⟨[⟨[0], 0⟩, ⟨[1], 1⟩]⟩ := by
  norm_num [initialSimplex, createSimplex, evalAll, sortSimplex, simplexVertex,
    ensureXAreInConstraintBounds, cexOptionsMax2, cexObjective, List.insertionSort,
    List.orderedInsert, pointLE, List.enum, List.enumFrom, List.range_succ]

theorem cexIterMax1 : runIteration cexObjective cexOptionsMax1 1 ⟨[⟨[0], 0⟩, ⟨[1], 1⟩]⟩ =
    (⟨[⟨[0], -1⟩, ⟨[0], 0⟩]⟩, false) := by
  norm_num [runIteration, toleranceMet, decisionStep, expansionPhase, contractionPhase,
    computeCentroid, centroidSum, Point.reflect, replacePoint, shrinkSimplex, clampBest,
    evalAll, sortSimplex, ensureXAreInConstraintBounds, cexOptionsMax1, cexObjective,
    List.insertionSort, List.orderedInsert, pointLE, List.range_succ]

theorem cexIterMax2a : runIteration cexObjective cexOptionsMax2 1 ⟨[⟨[0], 0⟩, ⟨[1], 1⟩]⟩ =
    (⟨[⟨[0], -1⟩, ⟨[0], 0⟩]⟩, false) := by
  norm_num [runIteration, toleranceMet, decisionStep, expansionPhase, contractionPhase,
    computeCentroid, centroidSum, Point.reflect, replacePoint, shrinkSimplex, clampBest,
    evalAll, sortSimplex, ensureXAreInConstraintBounds, cexOptionsMax2, cexObjective,
    List.insertionSort, List.orderedInsert, pointLE, List.range_succ]

theorem cexIterMax2b : runIteration cexObjective cexOptionsMax2 1 ⟨[⟨[0], -1⟩, ⟨[0], 0⟩]⟩ =
    (⟨[⟨[0], 0⟩, ⟨[0], 0⟩]⟩, false) := by
  norm_num [runIteration, toleranceMet, decisionStep, expansionPhase, contractionPhase,
    computeCentroid, centroidSum, Point.reflect, replacePoint, shrinkSimplex, clampBest,
    evalAll, sortSimplex, ensureXAreInConstraintBounds, cexOptionsMax2, cexObjective,
    List.insertionSort, List.orderedInsert, pointLE, List.range_succ]

theorem cexSeqMax2_one : seqState cexObjective [(0 : ℚ)] cexOptionsMax2 1 =
    ⟨[⟨[0], -1⟩, ⟨[0], 0⟩]⟩ := by
  rw [seqState_succ, seqState_zero, cexInitMax2]
  unfold nmStep
  have hlen : ([(0 : ℚ)]).length = 1 := rfl
  rw [hlen, cexIterMax2a]

theorem cexSeqMax2_two : seqState cexObjective [(0 : ℚ)] cexOptionsMax2 2 =
    ⟨[⟨[0], 0⟩, ⟨[0], 0⟩]⟩ := by
  rw [seqState_succ, cexSeqMax2_one]
  unfold nmStep
  have hlen : ([(0 : ℚ)]).length = 1 := rfl
  rw [hlen, cexIterMax2b]

/-- Claim C3 counterexample: a valid constrained run (objective `x[0]`,
constraint `[0, 10]`, one iteration) returns the Point `{X: [0], F: -1}`
without error, yet `f([0]) = 0 ≠ -1`: the returned `F` is stale because the
best vertex was clamped after its evaluation. -/
theorem C3_counterexample :
    cexOptionsMax1.validate = none ∧
    cexOptionsMax1.validateX0 [(0 : ℚ)] = none ∧
    Run ratSqrt cexObjective [(0 : ℚ)] cexOptionsMax1 = (⟨[0], -1⟩, none) ∧
    cexObjective [(0 : ℚ)] = 0 ∧
    ¬((⟨[0], -1⟩ : Point).F = cexObjective (⟨[0], -1⟩ : Point).X) := by
  refine ⟨cexOptionsMax1_validate, cexOptionsMax1_validateX0, ?_, rfl, by norm_num [cexObjective]⟩
  rw [Run_eq_loop ratSqrt cexObjective [(0 : ℚ)] cexOptionsMax1
    cexOptionsMax1_validate cexOptionsMax1_validateX0]
  have hfuel : cexOptionsMax1.MaxIterations.toNat = 0 + 1 := rfl
  rw [hfuel, cexInitMax1]
  have hstep : nmStep cexObjective cexOptionsMax1 1 ⟨[⟨[0], 0⟩, ⟨[1], 1⟩]⟩ =
      ⟨[⟨[0], -1⟩, ⟨[0], 0⟩]⟩ := by
    unfold nmStep
    rw [cexIterMax1]
  have hdone : nmDone cexObjective cexOptionsMax1 1 ⟨[⟨[0], 0⟩, ⟨[1], 1⟩]⟩ = false := by
    unfold nmDone
    rw [cexIterMax1]
  have hcol : (nmStep cexObjective cexOptionsMax1 1
      ⟨[⟨[0], 0⟩, ⟨[1], 1⟩]⟩).isCollapsed ratSqrt cexOptionsMax1.CollapseThreshold =
      false := by
    have h0 : cexOptionsMax1.CollapseThreshold = 0 := rfl
    rw [h0, isCollapsed_of_zero]
  have hlen : ([(0 : ℚ)]).length = 1 := rfl
  rw [hlen, RunLoop_succ_advance ratSqrt cexObjective cexOptionsMax1 1 0
    ⟨[⟨[0], 0⟩, ⟨[1], 1⟩]⟩ hcol hdone, hstep]
  rfl

/-- Claim C8 counterexample: in a valid constrained run (objective `x[0]`,
constraint `[0, 10]`, two iterations, both executed and error-free) the best
value rises from -1 after iteration 1 to 0 after iteration 2: the clamp of
the best vertex lets the next re-evaluation increase `Points[0].F`. -/
theorem C8_counterexample :
    cexOptionsMax2.validate = none ∧
    cexOptionsMax2.validateX0 [(0 : ℚ)] = none ∧
    nmDone cexObjective cexOptionsMax2 1 (seqState cexObjective [(0 : ℚ)] cexOptionsMax2 0) =
      false ∧
    nmDone cexObjective cexOptionsMax2 1 (seqState cexObjective [(0 : ℚ)] cexOptionsMax2 1) =
      false ∧
    Run ratSqrt cexObjective [(0 : ℚ)] cexOptionsMax2 = (⟨[0], 0⟩, none) ∧
    bestF (seqState cexObjective [(0 : ℚ)] cexOptionsMax2 1) = -1 ∧
    bestF (seqState cexObjective [(0 : ℚ)] cexOptionsMax2 2) = 0 ∧
    ¬(bestF (seqState cexObjective [(0 : ℚ)] cexOptionsMax2 2) ≤
      bestF (seqState cexObjective [(0 : ℚ)] cexOptionsMax2 1)) := by
  have hd0 : nmDone cexObjective cexOptionsMax2 1
      (seqState cexObjective [(0 : ℚ)] cexOptionsMax2 0) = false := by
    rw [seqState_zero, cexInitMax2]
    unfold nmDone
    rw [cexIterMax2a]
  have hd1 : nmDone cexObjective cexOptionsMax2 1
      (seqState cexObjective [(0 : ℚ)] cexOptionsMax2 1) = false := by
    rw [cexSeqMax2_one]
    unfold nmDone
    rw [cexIterMax2b]
  have hrun : Run ratSqrt cexObjective [(0 : ℚ)] cexOptionsMax2 = (⟨[0], 0⟩, none) := by
    rw [Run_eq_loop ratSqrt cexObjective [(0 : ℚ)] cexOptionsMax2
      cexOptionsMax2_validate cexOptionsMax2_validateX0]
    have hfuel : cexOptionsMax2.MaxIterations.toNat = 1 + 1 := rfl
    have hlen : ([(0 : ℚ)]).length = 1 := rfl
    have h0 : cexOptionsMax2.CollapseThreshold = 0 := rfl
    rw [hfuel, hlen, cexInitMax2]
    rw [RunLoop_succ_advance ratSqrt cexObjective cexOptionsMax2 1 1
      ⟨[⟨[0], 0⟩, ⟨[1], 1⟩]⟩ (by rw [h0, isCollapsed_of_zero])
      (by unfold nmDone; rw [cexIterMax2a])]
    have hstepa : nmStep cexObjective cexOptionsMax2 1 ⟨[⟨[0], 0⟩, ⟨[1], 1⟩]⟩ =
        ⟨[⟨[0], -1⟩, ⟨[0], 0⟩]⟩ := by
      unfold nmStep
      rw [cexIterMax2a]
    rw [hstepa]
    rw [RunLoop_succ_advance ratSqrt cexObjective cexOptionsMax2 1 0
      ⟨[⟨[0], -1⟩, ⟨[0], 0⟩]⟩ (by rw [h0, isCollapsed_of_zero])
      (by unfold nmDone; rw [cexIterMax2b])]
    have hstepb : nmStep cexObjective cexOptionsMax2 1 ⟨[⟨[0], -1⟩, ⟨[0], 0⟩]⟩ =
        ⟨[⟨[0], 0⟩, ⟨[0], 0⟩]⟩ := by
      unfold nmStep
      rw [cexIterMax2b]
    rw [hstepb]
    rfl
  refine ⟨cexOptionsMax2_validate, cexOptionsMax2_validateX0, hd0, hd1, hrun, ?_, ?_, ?_⟩
  · rw [cexSeqMax2_one]
    rfl
  · rw [cexSeqMax2_two]
    rfl
  · rw [cexSeqMax2_one, cexSeqMax2_two]
    norm_num [bestF]

theorem cexInitCollapse : initialSimplex cexConstObjective [(0 : ℚ)] cexCollapseOptions =
    ⟨[⟨[0], 0⟩, ⟨[1], 0⟩]⟩ := by
  norm_num [initialSimplex, createSimplex, evalAll, sortSimplex, simplexVertex,
    cexCollapseOptions, cexConstObjective, List.insertionSort, List.orderedInsert,
    pointLE, List.enum, List.enumFrom, List.range_succ]

theorem cexInitDone : initialSimplex cexConstObjective [(0 : ℚ)] cexDoneOptions =
    ⟨[⟨[0], 0⟩, ⟨[1], 0⟩]⟩ := by
  norm_num [initialSimplex, createSimplex, evalAll, sortSimplex, simplexVertex,
    cexDoneOptions, cexConstObjective, List.insertionSort, List.orderedInsert,
    pointLE, List.enum, List.enumFrom, List.range_succ]

theorem cexCollapse_met :
    toleranceMet cexCollapseOptions ⟨[⟨[0], 0⟩, ⟨[1], 0⟩]⟩ = true := by
  norm_num [toleranceMet, cexCollapseOptions]

theorem cexCollapse_isCollapsed :
    Simplex.isCollapsed ratSqrt ⟨[⟨[0], 0⟩, ⟨[1], 0⟩]⟩ 2 = true := by
  norm_num [Simplex.isCollapsed, pairDistances, distance, Simplex.averageEdgeLength,
    ratSqrt_one]

/-- Claim C4 counterexample: a valid run (constant objective, tolerance 1,
collapse threshold 2, unconstrained) whose very first start-of-iteration check
succeeds (`|0 - 0| < 1`) nevertheless returns the SimplexCollapseError with
the zero Point, because the collapse check still runs after the converged
iteration and fires (mean vertex distance 1 < 2). -/
theorem C4_counterexample :
    cexCollapseOptions.validate = none ∧
    cexCollapseOptions.validateX0 [(0 : ℚ)] = none ∧
    toleranceMet cexCollapseOptions
      (seqState cexConstObjective [(0 : ℚ)] cexCollapseOptions 0) = true ∧
    0 < cexCollapseOptions.MaxIterations.toNat ∧
    Run ratSqrt cexConstObjective [(0 : ℚ)] cexCollapseOptions =
      (⟨[], 0⟩, some .simplexCollapse) := by
  have hvx : cexCollapseOptions.validateX0 [(0 : ℚ)] = none :=
    validateX0_of_nil cexCollapseOptions [(0 : ℚ)] rfl
  refine ⟨cexCollapseOptions_validate, hvx, ?_, by norm_num [cexCollapseOptions], ?_⟩
  · rw [seqState_zero, cexInitCollapse]
    exact cexCollapse_met
  · rw [Run_eq_loop ratSqrt cexConstObjective [(0 : ℚ)] cexCollapseOptions
      cexCollapseOptions_validate hvx]
    have hfuel : cexCollapseOptions.MaxIterations.toNat = 0 + 1 := rfl
    have hlen : ([(0 : ℚ)]).length = 1 := rfl
    rw [hfuel, hlen, cexInitCollapse]
    apply RunLoop_succ_collapse
    rw [nmStep_of_met cexConstObjective cexCollapseOptions 1 _ cexCollapse_met]
    have hth : cexCollapseOptions.CollapseThreshold = 2 := rfl
    rw [hth]
    exact cexCollapse_isCollapsed

/-! ### Witnesses -/

/-- Witness for claim C1 at a concrete constrained run. -/
theorem C1_witness :
    (cexOptionsMax2.validate = none ∧ cexOptionsMax2.validateX0 [(0 : ℚ)] = none ∧
      cexOptionsMax2.Constraints ≠ []) ∧
    ((∀ p, Run ratSqrt cexObjective [(0 : ℚ)] cexOptionsMax2 = (p, none) →
        inBounds p.X cexOptionsMax2.Constraints) ∧
      (∀ k, bestInBounds (seqState cexObjective [(0 : ℚ)] cexOptionsMax2 k)
        cexOptionsMax2.Constraints)) :=
  ⟨⟨cexOptionsMax2_validate, cexOptionsMax2_validateX0, by simp [cexOptionsMax2]⟩,
    C1_constrained_run_stays_in_bounds ratSqrt cexObjective [(0 : ℚ)] cexOptionsMax2
      cexOptionsMax2_validate cexOptionsMax2_validateX0 (by simp [cexOptionsMax2])⟩

/-- An options record violating validation (Alpha = 0). -/
def cexInvalidOptions : Options := ⟨0, 1/2, 2, 1/2, 1, 0, 10, []⟩

/-- Witness for claim C2 at a concrete invalid options record. -/
theorem C2_witness :
    violatesValidation cexInvalidOptions [] ∧
    ∃ msg, ∀ f : Objective,
      Run ratSqrt f [] cexInvalidOptions = (⟨[], 0⟩, some (.validation msg)) ∧
      (RunC ratSqrt f [] cexInvalidOptions).2 = 0 :=
  ⟨Or.inl (by norm_num [cexInvalidOptions]),
    C2_validation_fails_before_any_call ratSqrt [] cexInvalidOptions
      (Or.inl (by norm_num [cexInvalidOptions]))⟩

/-- Witness for the amended claim C3 at a concrete unconstrained run. -/
theorem C3_witness :
    (cexNoConOptions.validate = none ∧ cexNoConOptions.Constraints = []) ∧
    ∀ p, Run ratSqrt cexObjective [(0 : ℚ)] cexNoConOptions = (p, none) →
      p.F = cexObjective p.X :=
  ⟨⟨cexNoConOptions_validate, rfl⟩,
    C3_amended_unconstrained_F_fresh ratSqrt cexObjective [(0 : ℚ)] cexNoConOptions
      cexNoConOptions_validate rfl⟩

/-- Witness for the amended claim C4 at a concrete converging run without
collapse. -/
theorem C4_witness :
    (cexDoneOptions.validate = none ∧ cexDoneOptions.validateX0 [(0 : ℚ)] = none ∧
      0 < cexDoneOptions.MaxIterations.toNat ∧
      toleranceMet cexDoneOptions
        (seqState cexConstObjective [(0 : ℚ)] cexDoneOptions 0) = true) ∧
    (((seqState cexConstObjective [(0 : ℚ)] cexDoneOptions 0).isCollapsed ratSqrt
        cexDoneOptions.CollapseThreshold = false →
      Run ratSqrt cexConstObjective [(0 : ℚ)] cexDoneOptions =
        ((seqState cexConstObjective [(0 : ℚ)] cexDoneOptions 0).Points.headD default,
          none)) ∧
    ((seqState cexConstObjective [(0 : ℚ)] cexDoneOptions 0).isCollapsed ratSqrt
        cexDoneOptions.CollapseThreshold = true →
      Run ratSqrt cexConstObjective [(0 : ℚ)] cexDoneOptions =
        (⟨[], 0⟩, some .simplexCollapse))) := by
  have hvx : cexDoneOptions.validateX0 [(0 : ℚ)] = none :=
    validateX0_of_nil cexDoneOptions [(0 : ℚ)] rfl
  have hmet : toleranceMet cexDoneOptions
      (seqState cexConstObjective [(0 : ℚ)] cexDoneOptions 0) = true := by
    rw [seqState_zero, cexInitDone]
    norm_num [toleranceMet, cexDoneOptions]
  exact ⟨⟨cexDoneOptions_validate, hvx, by norm_num [cexDoneOptions], hmet⟩,
    C4_amended_convergence_unless_collapsed ratSqrt cexConstObjective [(0 : ℚ)]
      cexDoneOptions cexDoneOptions_validate hvx 0 (by norm_num [cexDoneOptions])
      (fun j hj => absurd hj (by omega)) hmet⟩

/-- Witness for claim C5 at a concrete non-terminal simplex. -/
theorem C5_witness :
    (0 < cexOptionsMax1.Tolerance ∧
      toleranceMet cexOptionsMax1 ⟨[⟨[0], 0⟩, ⟨[1], 1⟩]⟩ = false ∧
      XLenInv 1 ⟨[⟨[0], 0⟩, ⟨[1], 1⟩]⟩) ∧
    runIteration cexObjective cexOptionsMax1 1 ⟨[⟨[0], 0⟩, ⟨[1], 1⟩]⟩ =
      (clampBest cexOptionsMax1 (sortSimplex (evalAll cexObjective
        (specDecisionStep cexObjective cexOptionsMax1 1 ⟨[⟨[0], 0⟩, ⟨[1], 1⟩]⟩))),
        false) := by
  have h1 : 0 < cexOptionsMax1.Tolerance := by norm_num [cexOptionsMax1]
  have h2 : toleranceMet cexOptionsMax1 ⟨[⟨[0], 0⟩, ⟨[1], 1⟩]⟩ = false := by
    norm_num [toleranceMet, cexOptionsMax1]
  have h3 : XLenInv 1 ⟨[⟨[0], 0⟩, ⟨[1], 1⟩]⟩ := by
    intro p hp
    simp only [List.mem_cons, List.not_mem_nil, or_false] at hp
    rcases hp with rfl | rfl <;> rfl
  exact ⟨⟨h1, h2, h3⟩,
    C5_decision_sequence cexObjective cexOptionsMax1 1 ⟨[⟨[0], 0⟩, ⟨[1], 1⟩]⟩ h1 h2 h3⟩

/-- Witness for claim C6 at a concrete collapsing run. -/
theorem C6_witness :
    ((∀ q, 0 ≤ q → 0 ≤ ratSqrt q) ∧ cexCollapseOptions.validate = none ∧
      cexCollapseOptions.validateX0 [(0 : ℚ)] = none) ∧
    (((Run ratSqrt cexConstObjective [(0 : ℚ)] cexCollapseOptions).2 =
        some Err.simplexCollapse ↔
      0 < cexCollapseOptions.CollapseThreshold ∧
      ∃ k < cexCollapseOptions.MaxIterations.toNat,
        (∀ j < k, nmDone cexConstObjective cexCollapseOptions ([(0 : ℚ)]).length
            (seqState cexConstObjective [(0 : ℚ)] cexCollapseOptions j) = false ∧
          (seqState cexConstObjective [(0 : ℚ)] cexCollapseOptions (j + 1)).isCollapsed
            ratSqrt cexCollapseOptions.CollapseThreshold = false) ∧
        (seqState cexConstObjective [(0 : ℚ)] cexCollapseOptions (k + 1)).isCollapsed
          ratSqrt cexCollapseOptions.CollapseThreshold = true) ∧
    (cexCollapseOptions.CollapseThreshold = 0 →
      (Run ratSqrt cexConstObjective [(0 : ℚ)] cexCollapseOptions).2 ≠
        some Err.simplexCollapse) ∧
    ((Run ratSqrt cexConstObjective [(0 : ℚ)] cexCollapseOptions).2 =
        some Err.simplexCollapse →
      (Run ratSqrt cexConstObjective [(0 : ℚ)] cexCollapseOptions).1 = ⟨[], 0⟩)) := by
  have hvx : cexCollapseOptions.validateX0 [(0 : ℚ)] = none :=
    validateX0_of_nil cexCollapseOptions [(0 : ℚ)] rfl
  exact ⟨⟨fun q _ => ratSqrt_nonneg q, cexCollapseOptions_validate, hvx⟩,
    C6_collapse_error_characterisation ratSqrt cexConstObjective [(0 : ℚ)]
      cexCollapseOptions (fun q _ => ratSqrt_nonneg q) cexCollapseOptions_validate hvx⟩

theorem cexInitNoCon : initialSimplex cexObjective [(0 : ℚ)] cexNoConOptions =
    ⟨[⟨[0], 0⟩, ⟨[1], 1⟩]⟩ := by
  norm_num [initialSimplex, createSimplex, evalAll, sortSimplex, simplexVertex,
    cexNoConOptions, cexObjective, List.insertionSort, List.orderedInsert,
    pointLE, List.enum, List.enumFrom, List.range_succ]

theorem cexIterNoCon : runIteration cexObjective cexNoConOptions 1
    ⟨[⟨[0], 0⟩, ⟨[1], 1⟩]⟩ = (⟨[⟨[-1], -1⟩, ⟨[0], 0⟩]⟩, false) := by
  norm_num [runIteration, toleranceMet, decisionStep, expansionPhase, contractionPhase,
    computeCentroid, centroidSum, Point.reflect, replacePoint, shrinkSimplex, clampBest,
    evalAll, sortSimplex, cexNoConOptions, cexObjective,
    List.insertionSort, List.orderedInsert, pointLE, List.range_succ]

/-- Witness for claim C7 at a concrete run that exhausts its one-iteration
budget. -/
theorem C7_witness :
    (cexNoConOptions.validate = none ∧ cexNoConOptions.validateX0 [(0 : ℚ)] = none ∧
      (∀ k < cexNoConOptions.MaxIterations.toNat,
        nmDone cexObjective cexNoConOptions ([(0 : ℚ)]).length
          (seqState cexObjective [(0 : ℚ)] cexNoConOptions k) = false ∧
        (seqState cexObjective [(0 : ℚ)] cexNoConOptions (k + 1)).isCollapsed ratSqrt
          cexNoConOptions.CollapseThreshold = false)) ∧
    Run ratSqrt cexObjective [(0 : ℚ)] cexNoConOptions =
      ((seqState cexObjective [(0 : ℚ)] cexNoConOptions
        cexNoConOptions.MaxIterations.toNat).Points.headD default, none) := by
  have hvx : cexNoConOptions.validateX0 [(0 : ℚ)] = none :=
    validateX0_of_nil cexNoConOptions [(0 : ℚ)] rfl
  have hth : cexNoConOptions.CollapseThreshold = 0 := rfl
  have h : ∀ k < cexNoConOptions.MaxIterations.toNat,
      nmDone cexObjective cexNoConOptions ([(0 : ℚ)]).length
        (seqState cexObjective [(0 : ℚ)] cexNoConOptions k) = false ∧
      (seqState cexObjective [(0 : ℚ)] cexNoConOptions (k + 1)).isCollapsed ratSqrt
        cexNoConOptions.CollapseThreshold = false := by
    intro k hk
    have hk0 : k = 0 := by
      have : cexNoConOptions.MaxIterations.toNat = 1 := rfl
      omega
    subst hk0
    constructor
    · rw [seqState_zero, cexInitNoCon]
      unfold nmDone
      have hlen : ([(0 : ℚ)]).length = 1 := rfl
      rw [hlen, cexIterNoCon]
    · rw [hth, isCollapsed_of_zero]
  exact ⟨⟨cexNoConOptions_validate, hvx, h⟩,
    C7_exhaustion_returns_best ratSqrt cexObjective [(0 : ℚ)] cexNoConOptions
      cexNoConOptions_validate hvx h⟩

/-- Witness for the amended claim C8 at a concrete unconstrained run. -/
theorem C8_witness :
    (cexNoConOptions.validate = none ∧ cexNoConOptions.Constraints = []) ∧
    bestF (seqState cexObjective [(0 : ℚ)] cexNoConOptions 1) ≤
      bestF (seqState cexObjective [(0 : ℚ)] cexNoConOptions 0) :=
  ⟨⟨cexNoConOptions_validate, rfl⟩,
    C8_amended_unconstrained_bestF_monotone cexObjective [(0 : ℚ)] cexNoConOptions
      cexNoConOptions_validate rfl 0⟩

/-- Witness for claim C9 at a concrete valid unconstrained options record. -/
theorem C9_witness :
    (cexNoConOptions.validate = none ∧ cexNoConOptions.Constraints = []) ∧
    (RunC ratSqrt cexObjective [] cexNoConOptions =
      ((⟨[], cexObjective []⟩, none), 1) ∧
    Run ratSqrt cexObjective [] cexNoConOptions = (⟨[], cexObjective []⟩, none)) :=
  ⟨⟨cexNoConOptions_validate, rfl⟩,
    C9_empty_guess_total ratSqrt cexObjective cexNoConOptions
      cexNoConOptions_validate rfl⟩

/-! ### A store-based model of the slice mutation in `Run` (claim C10)

Go slices are mutable heap arrays.  To state the frame property - `Run`
never modifies the caller's `x0` slice - the float-slice heap is made
explicit: a `Store` maps references (allocation indices) to rational rows,
`make` is modelled by `allocRef`, and every slice-element write in the source
becomes a `writeRef` of the updated row.  A heap vertex (`HPoint`) holds a
reference to its coordinate row plus the `F` field, which in Go lives in the
`Points` struct array (allocated inside `createSimplex`) rather than in any
float slice.  Go's `pointBuf` is one 4n-element array sliced into four
disjoint, capacity-pinned views; the model allocates the four scratch rows
separately, which preserves their disjointness. -/

abbrev Store := List (List ℚ)

def readRef (σ : Store) (r : Nat) : List ℚ := σ.getD r []

def writeRef (σ : Store) (r : Nat) (v : List ℚ) : Store := σ.set r v

def allocRef (σ : Store) (v : List ℚ) : Store × Nat := (σ ++ [v], σ.length)

/-- A heap vertex: a reference to the coordinate row plus the cached value. -/
structure HPoint where
  X : Nat
  F : ℚ
deriving DecidableEq

instance : Inhabited HPoint := ⟨⟨0, 0⟩⟩

structure HSimplex where
  Points : List HPoint
deriving DecidableEq

/-- The coordinate-row references held by a heap simplex. -/
def pointRefs (s : HSimplex) : List Nat := s.Points.map fun p => p.X

/-- The `make([]float64, len(x))` loop of `createSimplex`: allocate `count`
zero rows of length `len`. -/
def allocZeroRows (len : Nat) : Store → Nat → Store × List Nat
  | σ, 0 => (σ, [])
  | σ, count + 1 =>
    let a := allocRef σ (List.replicate len 0)
    let rest := allocZeroRows len a.1 count
    (rest.1, a.2 :: rest.2)

/-- The vertex-filling loops of `createSimplex`, writing vertex `i` into its
row (reading `x` from the store at each step, as the Go loops do). -/
def writeVertices (xr : Nat) (n : Nat) : Store → List Nat → Nat → Store
  | σ, [], _ => σ
  | σ, r :: rest, i =>
    writeVertices xr n (writeRef σ r (simplexVertex (readRef σ xr) n i)) rest (i + 1)

/-- The clamp loop of `createSimplex`: clamp every vertex row in place. -/
def clampAllH : Store → List Nat → List Constraint → Store
  | σ, [], _ => σ
  | σ, r :: rest, cs =>
    clampAllH (writeRef σ r (ensureXAreInConstraintBounds (readRef σ r) cs)) rest cs

/-- `createSimplex` over the store: allocate n+1 fresh rows, fill them from
`x` (vertex 0 is `x`, vertex i perturbs dimension i-1), clamp when
constraints are present. -/
def createSimplexH (σ : Store) (xr : Nat) (n : Nat) (constraints : List Constraint) :
    Store × HSimplex :=
  let len := (readRef σ xr).length
  let a := allocZeroRows len σ (n + 1)
  let σ2 := writeVertices xr n a.1 a.2 0
  let σ3 := if constraints.length > 0 then clampAllH σ2 a.2 constraints else σ2
  (σ3, ⟨a.2.map fun r => ⟨r, 0⟩⟩)

/-- The materialised value of a heap simplex (used by the collapse check and
for returning the best Point). -/
def hValue (σ : Store) (s : HSimplex) : Simplex :=
  ⟨s.Points.map fun p => ⟨readRef σ p.X, p.F⟩⟩

/-- The evaluation loop over the store: set every `F` from the current row
contents (the rows themselves are not written). -/
def evalAllH (f : Objective) (σ : Store) (s : HSimplex) : HSimplex :=
  ⟨s.Points.map fun p => ⟨p.X, f (readRef σ p.X)⟩⟩

def hpointLE (a b : HPoint) : Prop := a.F ≤ b.F

instance : DecidableRel hpointLE := fun a b => inferInstanceAs (Decidable (a.F ≤ b.F))

/-- `sortSimplex` over the heap: permutes the `Points` struct array (itself
allocated inside `createSimplex`), not the float rows. -/
def sortSimplexH (s : HSimplex) : HSimplex :=
  ⟨List.insertionSort hpointLE s.Points⟩

/-- The tolerance check reads only the cached `F` fields. -/
def toleranceMetH (options : Options) (s : HSimplex) : Bool :=
  decide (|(s.Points.headD default).F - (s.Points.getD (s.Points.length - 1) default).F|
    < options.Tolerance)

/-- `computeCentroid` over the store: Go zeroes the centroid buffer and then
accumulates into it element-wise; the net effect is one write of the centroid
row. -/
def computeCentroidH (σ : Store) (centroidRef : Nat) (n : Nat) (s : HSimplex)
    (excludeIndex : Nat) : Store :=
  writeRef σ centroidRef
    (computeCentroid n (hValue σ s) excludeIndex)

/-- `Point.reflect` over the store: write the affine combination into the
scratch row and return the objective value at it. -/
def reflectH (σ : Store) (pRef : Nat) (f : Objective) (scratchRef centroidRef : Nat)
    (alpha : ℚ) : Store × ℚ :=
  let X := ((readRef σ centroidRef).zip (readRef σ pRef)).map
    fun cp => cp.1 + alpha * (cp.1 - cp.2)
  (writeRef σ scratchRef X, f X)

/-- `Simplex.replacePoint` over the store: copy the scratch row into vertex
`i`'s row, update its `F`, then zero the scratch (Go's `setZero`). -/
def replacePointH (σ : Store) (s : HSimplex) (i : Nat) (src : HPoint) :
    Store × HSimplex :=
  let dst := (s.Points.getD i default).X
  let σ1 := writeRef σ dst (readRef σ src.X)
  let σ2 := writeRef σ1 src.X (List.replicate (readRef σ1 src.X).length 0)
  (σ2, ⟨s.Points.set i ⟨dst, src.F⟩⟩)

/-- The `shrinkSimplex` loop over the store. -/
def shrinkLoopH (d : ℚ) (bestRef : Nat) : Store → List HPoint → Store
  | σ, [] => σ
  | σ, p :: rest =>
    shrinkLoopH d bestRef
      (writeRef σ p.X (((readRef σ bestRef).zip (readRef σ p.X)).map
        fun bp => bp.1 + d * (bp.2 - bp.1))) rest

def shrinkSimplexH (σ : Store) (s : HSimplex) (d : ℚ) : Store :=
  match s.Points with
  | [] => σ
  | best :: rest => shrinkLoopH d best.X σ rest

/-- `ensureXAreInConstraintBounds` over the store. -/
def ensureXBoundsH (σ : Store) (r : Nat) (cs : List Constraint) : Store :=
  writeRef σ r (ensureXAreInConstraintBounds (readRef σ r) cs)

/-- The end-of-iteration clamp over the store. -/
def clampBestH (σ : Store) (s : HSimplex) (cs : List Constraint) : Store :=
  if cs.length > 0 then
    match s.Points with
    | [] => σ
    | best :: _ => ensureXBoundsH σ best.X cs
  else σ

/-- The expansion branch of `runIteration` over the store. -/
def expansionPhaseH (f : Objective) (options : Options)
    (reflRef expRef centroidRef : Nat) (last : Nat) (rF : ℚ)
    (σ : Store) (s : HSimplex) : Store × HSimplex :=
  let exp := reflectH σ reflRef f expRef centroidRef options.Gamma
  if exp.2 < rF then replacePointH exp.1 s last ⟨expRef, exp.2⟩
  else replacePointH exp.1 s last ⟨reflRef, rF⟩

/-- The contraction/shrink branch of `runIteration` over the store. -/
def contractionPhaseH (f : Objective) (options : Options)
    (reflRef contrRef centroidRef : Nat) (last : Nat) (rF : ℚ)
    (σ : Store) (s : HSimplex) : Store × HSimplex :=
  let s3 :=
    if rF < (s.Points.getD last default).F then
      replacePointH σ s last ⟨reflRef, rF⟩
    else (σ, s)
  let worst1 := s3.2.Points.getD last default
  let contr := reflectH s3.1 worst1.X f contrRef centroidRef options.Beta
  if contr.2 < worst1.F then replacePointH contr.1 s3.2 last ⟨contrRef, contr.2⟩
  else (shrinkSimplexH contr.1 s3.2 options.Delta, s3.2)

/-- `runIteration` over the store. -/
def runIterationH (f : Objective) (options : Options) (n : Nat)
    (reflRef expRef contrRef centroidRef : Nat) (σ : Store) (s : HSimplex) :
    (Store × HSimplex) × Bool :=
  if toleranceMetH options s then ((σ, s), true)
  else
    let last := s.Points.length - 1
    let σ1 := computeCentroidH σ centroidRef n s last
    let refl := reflectH σ1 (s.Points.getD last default).X f reflRef centroidRef
      options.Alpha
    let step :=
      if refl.2 < (s.Points.getD (s.Points.length - 2) default).F then
        expansionPhaseH f options reflRef expRef centroidRef last refl.2 refl.1 s
      else
        contractionPhaseH f options reflRef contrRef centroidRef last refl.2 refl.1 s
    let s4 := sortSimplexH (evalAllH f step.1 step.2)
    ((clampBestH step.1 s4 options.Constraints, s4), false)

/-- The iteration loop of `Run` over the store. -/
def RunLoopH (sqrtFn : ℚ → ℚ) (f : Objective) (options : Options) (n : Nat)
    (reflRef expRef contrRef centroidRef : Nat) :
    Nat → Store → HSimplex → Store × (Point × Option Err)
  | 0, σ, s =>
    (σ, (⟨readRef σ (s.Points.headD default).X, (s.Points.headD default).F⟩, none))
  | fuel + 1, σ, s =>
    let r := runIterationH f options n reflRef expRef contrRef centroidRef σ s
    if (hValue r.1.1 r.1.2).isCollapsed sqrtFn options.CollapseThreshold then
      (r.1.1, (⟨[], 0⟩, some .simplexCollapse))
    else if r.2 then
      (r.1.1, (⟨readRef r.1.1 (r.1.2.Points.headD default).X,
        (r.1.2.Points.headD default).F⟩, none))
    else RunLoopH sqrtFn f options n reflRef expRef contrRef centroidRef fuel r.1.1 r.1.2

/-- `Run` over the store: the caller's `x0` lives in the store at `xr`. -/
def RunH (sqrtFn : ℚ → ℚ) (f : Objective) (σ : Store) (xr : Nat) (options : Options) :
    Store × (Point × Option Err) :=
  let x0 := readRef σ xr
  match options.validate with
  | some msg => (σ, (⟨[], 0⟩, some (.validation msg)))
  | none =>
    match options.validateX0 x0 with
    | some msg => (σ, (⟨[], 0⟩, some (.validation msg)))
    | none =>
      let n := x0.length
      let c := createSimplexH σ xr n options.Constraints
      let simplex := sortSimplexH (evalAllH f c.1 c.2)
      let a1 := allocRef c.1 (List.replicate n 0)
      let a2 := allocRef a1.1 (List.replicate n 0)
      let a3 := allocRef a2.1 (List.replicate n 0)
      let a4 := allocRef a3.1 (List.replicate n 0)
      RunLoopH sqrtFn f options n a1.2 a2.2 a3.2 a4.2
        options.MaxIterations.toNat a4.1 simplex

/-! ### Frame lemmas: which references each store operation writes -/

theorem readRef_writeRef_ne (σ : Store) (r r' : Nat) (v : List ℚ) (h : r' ≠ r) :
    readRef (writeRef σ r v) r' = readRef σ r' := by
  unfold readRef writeRef
  rw [List.getD_eq_getElem?_getD, List.getD_eq_getElem?_getD,
    List.getElem?_set_ne (Ne.symm h)]

theorem writeRef_length (σ : Store) (r : Nat) (v : List ℚ) :
    (writeRef σ r v).length = σ.length := by
  simp [writeRef]

theorem readRef_append_ne (σ : Store) (v : List ℚ) (r : Nat) (h : r ≠ σ.length) :
    readRef (σ ++ [v]) r = readRef σ r := by
  unfold readRef
  rcases Nat.lt_or_ge r σ.length with h1 | h1
  · rw [List.getD_eq_getElem?_getD, List.getD_eq_getElem?_getD,
      List.getElem?_append_left h1]
  · have h2 : σ.length < r := Nat.lt_of_le_of_ne h1 (Ne.symm h)
    have hlen : (σ ++ [v]).length ≤ r := by
      rw [List.length_append]
      exact h2
    rw [@List.getD_eq_default _ (σ ++ [v]) [] r hlen, @List.getD_eq_default _ σ [] r h1]

/-- All writes between `σ` and `σ2` hit references in `W`. -/
def WritesWithin (W : List Nat) (σ σ2 : Store) : Prop :=
  ∀ r, r ∉ W → readRef σ2 r = readRef σ r

theorem WritesWithin.refl (W : List Nat) (σ : Store) : WritesWithin W σ σ :=
  fun _ _ => Eq.refl _

theorem WritesWithin.trans {W : List Nat} {σ σ2 σ3 : Store}
    (h1 : WritesWithin W σ σ2) (h2 : WritesWithin W σ2 σ3) : WritesWithin W σ σ3 :=
  fun r hr => (h2 r hr).trans (h1 r hr)

theorem WritesWithin.write {W : List Nat} (σ : Store) {r : Nat} (v : List ℚ)
    (h : r ∈ W) : WritesWithin W σ (writeRef σ r v) :=
  fun r2 hr2 => readRef_writeRef_ne σ r r2 v (fun he => hr2 (he ▸ h))

theorem allocZeroRows_spec (len : Nat) :
    ∀ (count : Nat) (σ : Store),
    (allocZeroRows len σ count).1.length = σ.length + count ∧
    (∀ r ∈ (allocZeroRows len σ count).2, σ.length ≤ r) ∧
    (∀ r, r ∉ (allocZeroRows len σ count).2 →
      readRef (allocZeroRows len σ count).1 r = readRef σ r) ∧
    (allocZeroRows len σ count).2.length = count := by
  intro count
  induction count with
  | zero =>
    intro σ
    refine ⟨rfl, ?_, ?_, rfl⟩
    · intro r hr
      simp [allocZeroRows] at hr
    · intro r _
      rfl
  | succ count ih =>
    intro σ
    obtain ⟨ih1, ih2, ih3, ih4⟩ := ih (σ ++ [List.replicate len 0])
    unfold allocZeroRows allocRef
    dsimp only
    refine ⟨?_, ?_, ?_, ?_⟩
    · rw [ih1]
      simp only [List.length_append, List.length_cons, List.length_nil]
      omega
    · intro r hr
      rcases List.mem_cons.mp hr with rfl | hm
      · exact le_refl _
      · have := ih2 r hm
        simp only [List.length_append, List.length_cons, List.length_nil] at this
        omega
    · intro r hr
      have hr1 : r ≠ σ.length := fun he => hr (by rw [he]; exact List.mem_cons_self _ _)
      have hr2 : r ∉ (allocZeroRows len (σ ++ [List.replicate len 0]) count).2 :=
        fun hm => hr (List.mem_cons_of_mem _ hm)
      rw [ih3 r hr2, readRef_append_ne σ _ r hr1]
    · simp only [List.length_cons, ih4]

theorem writeVertices_frame (xr : Nat) (n : Nat) :
    ∀ (refs : List Nat) (σ : Store) (i : Nat) (r : Nat), r ∉ refs →
    readRef (writeVertices xr n σ refs i) r = readRef σ r := by
  intro refs
  induction refs with
  | nil => intro σ i r _; exact Eq.refl _
  | cons q rest ih =>
    intro σ i r hr
    unfold writeVertices
    rw [ih _ (i + 1) r (fun hm => hr (List.mem_cons_of_mem _ hm))]
    exact readRef_writeRef_ne σ q r _ (fun he => hr (he ▸ List.mem_cons_self _ _))

theorem writeVertices_length (xr : Nat) (n : Nat) :
    ∀ (refs : List Nat) (σ : Store) (i : Nat),
    (writeVertices xr n σ refs i).length = σ.length := by
  intro refs
  induction refs with
  | nil => intro σ i; exact Eq.refl _
  | cons q rest ih =>
    intro σ i
    unfold writeVertices
    rw [ih _ (i + 1), writeRef_length]

theorem clampAllH_frame :
    ∀ (refs : List Nat) (σ : Store) (cs : List Constraint) (r : Nat), r ∉ refs →
    readRef (clampAllH σ refs cs) r = readRef σ r := by
  intro refs
  induction refs with
  | nil => intro σ cs r _; exact Eq.refl _
  | cons q rest ih =>
    intro σ cs r hr
    unfold clampAllH
    rw [ih _ cs r (fun hm => hr (List.mem_cons_of_mem _ hm))]
    exact readRef_writeRef_ne σ q r _ (fun he => hr (he ▸ List.mem_cons_self _ _))

theorem clampAllH_length :
    ∀ (refs : List Nat) (σ : Store) (cs : List Constraint),
    (clampAllH σ refs cs).length = σ.length := by
  intro refs
  induction refs with
  | nil => intro σ cs; exact Eq.refl _
  | cons q rest ih =>
    intro σ cs
    unfold clampAllH
    rw [ih, writeRef_length]

theorem pointRefs_mk_map (refs : List Nat) :
    pointRefs ⟨refs.map fun r => (⟨r, 0⟩ : HPoint)⟩ = refs := by
  induction refs with
  | nil => rfl
  | cons a rest ih => simpa [pointRefs] using ih

theorem createSimplexH_spec (σ : Store) (xr : Nat) (n : Nat) (cs : List Constraint) :
    (∀ r, r ∉ pointRefs (createSimplexH σ xr n cs).2 →
      readRef (createSimplexH σ xr n cs).1 r = readRef σ r) ∧
    (∀ r ∈ pointRefs (createSimplexH σ xr n cs).2, σ.length ≤ r) ∧
    (createSimplexH σ xr n cs).1.length = σ.length + (n + 1) ∧
    (createSimplexH σ xr n cs).2.Points.length = n + 1 := by
  obtain ⟨h1, h2, h3, h4⟩ :=
    allocZeroRows_spec (readRef σ xr).length (n + 1) σ
  unfold createSimplexH
  dsimp only
  rw [pointRefs_mk_map]
  refine ⟨?_, h2, ?_, by simp [h4]⟩
  · intro r hr
    split
    · rw [clampAllH_frame _ _ _ r hr, writeVertices_frame xr n _ _ 0 r hr, h3 r hr]
    · rw [writeVertices_frame xr n _ _ 0 r hr, h3 r hr]
  · split
    · rw [clampAllH_length, writeVertices_length, h1]
    · rw [writeVertices_length, h1]

theorem replacePointH_spec (W : List Nat) (σ : Store) (s : HSimplex) (i : Nat)
    (src : HPoint) (hW : pointRefs s ⊆ W) (hsrc : src.X ∈ W)
    (hi : i < s.Points.length) :
    WritesWithin W σ (replacePointH σ s i src).1 ∧
    pointRefs (replacePointH σ s i src).2 ⊆ W ∧
    (replacePointH σ s i src).2.Points.length = s.Points.length := by
  have hdst : (s.Points.getD i default).X ∈ W :=
    hW (List.mem_map_of_mem (fun p => p.X) (getD_mem _ _ _ hi))
  unfold replacePointH
  dsimp only
  refine ⟨?_, ?_, by simp⟩
  · exact (WritesWithin.write σ _ hdst).trans (WritesWithin.write _ _ hsrc)
  · intro r hr
    simp only [pointRefs, List.mem_map] at hr
    obtain ⟨p, hp, rfl⟩ := hr
    rcases List.mem_or_eq_of_mem_set hp with hm | rfl
    · exact hW (List.mem_map_of_mem (fun p => p.X) hm)
    · exact hdst

theorem reflectH_write (σ : Store) (pRef : Nat) (f : Objective)
    (scratchRef centroidRef : Nat) (alpha : ℚ) (W : List Nat) (h : scratchRef ∈ W) :
    WritesWithin W σ (reflectH σ pRef f scratchRef centroidRef alpha).1 :=
  WritesWithin.write σ _ h

theorem shrinkLoopH_frame (d : ℚ) (bestRef : Nat) (W : List Nat) :
    ∀ (l : List HPoint) (σ : Store), (∀ p ∈ l, p.X ∈ W) →
    WritesWithin W σ (shrinkLoopH d bestRef σ l) := by
  intro l
  induction l with
  | nil => intro σ _; exact WritesWithin.refl W σ
  | cons p rest ih =>
    intro σ hl
    unfold shrinkLoopH
    exact (WritesWithin.write σ _ (hl p (List.mem_cons_self _ _))).trans
      (ih _ (fun q hq => hl q (List.mem_cons_of_mem _ hq)))

theorem shrinkSimplexH_frame (σ : Store) (s : HSimplex) (d : ℚ) (W : List Nat)
    (hW : pointRefs s ⊆ W) : WritesWithin W σ (shrinkSimplexH σ s d) := by
  obtain ⟨ps⟩ := s
  cases ps with
  | nil => exact WritesWithin.refl W σ
  | cons best rest =>
    unfold shrinkSimplexH
    apply shrinkLoopH_frame
    intro p hp
    exact hW (List.mem_map_of_mem (fun p => p.X) (List.mem_cons_of_mem _ hp))

theorem clampBestH_frame (σ : Store) (s : HSimplex) (cs : List Constraint)
    (W : List Nat) (hW : pointRefs s ⊆ W) : WritesWithin W σ (clampBestH σ s cs) := by
  unfold clampBestH
  split
  · obtain ⟨ps⟩ := s
    cases ps with
    | nil => exact WritesWithin.refl W σ
    | cons best rest =>
      apply WritesWithin.write
      exact hW (List.mem_map_of_mem (fun p : HPoint => p.X) (List.mem_cons_self best rest))
  · exact WritesWithin.refl W σ

theorem pointRefs_evalAllH (f : Objective) (σ : Store) (s : HSimplex) :
    pointRefs (evalAllH f σ s) = pointRefs s := by
  simp [pointRefs, evalAllH, List.map_map, Function.comp]

theorem sortSimplexH_perm (s : HSimplex) : (sortSimplexH s).Points.Perm s.Points :=
  List.perm_insertionSort hpointLE s.Points

theorem pointRefs_sortSimplexH (s : HSimplex) (W : List Nat)
    (hW : pointRefs s ⊆ W) : pointRefs (sortSimplexH s) ⊆ W := by
  intro r hr
  simp only [pointRefs, List.mem_map] at hr
  obtain ⟨p, hp, rfl⟩ := hr
  exact hW (List.mem_map_of_mem (fun p => p.X) ((sortSimplexH_perm s).mem_iff.mp hp))

theorem evalAllH_length (f : Objective) (σ : Store) (s : HSimplex) :
    (evalAllH f σ s).Points.length = s.Points.length := by
  simp [evalAllH]

theorem sortSimplexH_length (s : HSimplex) :
    (sortSimplexH s).Points.length = s.Points.length :=
  (sortSimplexH_perm s).length_eq

theorem expansionPhaseH_spec (f : Objective) (options : Options)
    (reflRef expRef centroidRef : Nat) (last : Nat) (rF : ℚ)
    (W : List Nat) (σ : Store) (s : HSimplex)
    (hW : pointRefs s ⊆ W) (hr : reflRef ∈ W) (he : expRef ∈ W)
    (hlast : last < s.Points.length) :
    WritesWithin W σ (expansionPhaseH f options reflRef expRef centroidRef last rF σ s).1 ∧
    pointRefs (expansionPhaseH f options reflRef expRef centroidRef last rF σ s).2 ⊆ W ∧
    (expansionPhaseH f options reflRef expRef centroidRef last rF σ s).2.Points.length =
      s.Points.length := by
  unfold expansionPhaseH
  dsimp only
  split
  · obtain ⟨a, b, c⟩ := replacePointH_spec W
      (reflectH σ reflRef f expRef centroidRef options.Gamma).1 s last
      ⟨expRef, (reflectH σ reflRef f expRef centroidRef options.Gamma).2⟩ hW he hlast
    exact ⟨(reflectH_write σ reflRef f expRef centroidRef options.Gamma W he).trans a, b, c⟩
  · obtain ⟨a, b, c⟩ := replacePointH_spec W
      (reflectH σ reflRef f expRef centroidRef options.Gamma).1 s last
      ⟨reflRef, rF⟩ hW hr hlast
    exact ⟨(reflectH_write σ reflRef f expRef centroidRef options.Gamma W he).trans a, b, c⟩

theorem contractTailH_spec (f : Objective) (options : Options)
    (contrRef centroidRef : Nat) (last : Nat) (W : List Nat)
    (σ3 : Store) (s3 : HSimplex)
    (hW : pointRefs s3 ⊆ W) (hc : contrRef ∈ W) (hlast : last < s3.Points.length) :
    WritesWithin W σ3
      (if (reflectH σ3 (s3.Points.getD last default).X f contrRef centroidRef
            options.Beta).2 < (s3.Points.getD last default).F then
        replacePointH (reflectH σ3 (s3.Points.getD last default).X f contrRef centroidRef
            options.Beta).1 s3 last
          ⟨contrRef, (reflectH σ3 (s3.Points.getD last default).X f contrRef centroidRef
            options.Beta).2⟩
      else (shrinkSimplexH (reflectH σ3 (s3.Points.getD last default).X f contrRef
            centroidRef options.Beta).1 s3 options.Delta, s3)).1 ∧
    pointRefs
      (if (reflectH σ3 (s3.Points.getD last default).X f contrRef centroidRef
            options.Beta).2 < (s3.Points.getD last default).F then
        replacePointH (reflectH σ3 (s3.Points.getD last default).X f contrRef centroidRef
            options.Beta).1 s3 last
          ⟨contrRef, (reflectH σ3 (s3.Points.getD last default).X f contrRef centroidRef
            options.Beta).2⟩
      else (shrinkSimplexH (reflectH σ3 (s3.Points.getD last default).X f contrRef
            centroidRef options.Beta).1 s3 options.Delta, s3)).2 ⊆ W ∧
    (if (reflectH σ3 (s3.Points.getD last default).X f contrRef centroidRef
            options.Beta).2 < (s3.Points.getD last default).F then
        replacePointH (reflectH σ3 (s3.Points.getD last default).X f contrRef centroidRef
            options.Beta).1 s3 last
          ⟨contrRef, (reflectH σ3 (s3.Points.getD last default).X f contrRef centroidRef
            options.Beta).2⟩
      else (shrinkSimplexH (reflectH σ3 (s3.Points.getD last default).X f contrRef
            centroidRef options.Beta).1 s3 options.Delta, s3)).2.Points.length =
      s3.Points.length := by
  split
  · obtain ⟨a, b, c⟩ := replacePointH_spec W
      (reflectH σ3 (s3.Points.getD last default).X f contrRef centroidRef options.Beta).1
      s3 last
      ⟨contrRef, (reflectH σ3 (s3.Points.getD last default).X f contrRef centroidRef
        options.Beta).2⟩ hW hc hlast
    exact ⟨(reflectH_write σ3 _ f contrRef centroidRef options.Beta W hc).trans a, b, c⟩
  · exact ⟨(reflectH_write σ3 _ f contrRef centroidRef options.Beta W hc).trans
      (shrinkSimplexH_frame _ s3 options.Delta W hW), hW, rfl⟩

theorem contractionPhaseH_spec (f : Objective) (options : Options)
    (reflRef contrRef centroidRef : Nat) (last : Nat) (rF : ℚ)
    (W : List Nat) (σ : Store) (s : HSimplex)
    (hW : pointRefs s ⊆ W) (hr : reflRef ∈ W) (hc : contrRef ∈ W)
    (hlast : last < s.Points.length) :
    WritesWithin W σ
      (contractionPhaseH f options reflRef contrRef centroidRef last rF σ s).1 ∧
    pointRefs (contractionPhaseH f options reflRef contrRef centroidRef last rF σ s).2 ⊆ W ∧
    (contractionPhaseH f options reflRef contrRef centroidRef last rF σ s).2.Points.length =
      s.Points.length := by
  unfold contractionPhaseH
  dsimp only
  split
  · obtain ⟨a0, b0, c0⟩ := replacePointH_spec W σ s last ⟨reflRef, rF⟩ hW hr hlast
    obtain ⟨a, b, c⟩ := contractTailH_spec f options contrRef centroidRef last W
      (replacePointH σ s last ⟨reflRef, rF⟩).1 (replacePointH σ s last ⟨reflRef, rF⟩).2
      b0 hc (by rw [c0]; exact hlast)
    exact ⟨a0.trans a, b, by rw [c, c0]⟩
  · exact contractTailH_spec f options contrRef centroidRef last W σ s hW hc hlast

theorem runIterationH_spec (f : Objective) (options : Options) (n : Nat)
    (reflRef expRef contrRef centroidRef : Nat) (W : List Nat) (σ : Store) (s : HSimplex)
    (hW : pointRefs s ⊆ W) (h1 : reflRef ∈ W) (h2 : expRef ∈ W) (h3 : contrRef ∈ W)
    (h4 : centroidRef ∈ W) (hne : s.Points ≠ []) :
    WritesWithin W σ
      (runIterationH f options n reflRef expRef contrRef centroidRef σ s).1.1 ∧
    pointRefs (runIterationH f options n reflRef expRef contrRef centroidRef σ s).1.2 ⊆ W ∧
    (runIterationH f options n reflRef expRef contrRef centroidRef σ s).1.2.Points.length =
      s.Points.length := by
  have hlast : s.Points.length - 1 < s.Points.length := by
    have := List.length_pos.mpr hne
    omega
  unfold runIterationH
  split
  · exact ⟨WritesWithin.refl W σ, hW, rfl⟩
  · dsimp only
    have hstep : WritesWithin W (computeCentroidH σ centroidRef n s (s.Points.length - 1))
        (if (reflectH (computeCentroidH σ centroidRef n s (s.Points.length - 1))
              (s.Points.getD (s.Points.length - 1) default).X f reflRef centroidRef
              options.Alpha).2 <
            (s.Points.getD (s.Points.length - 2) default).F then
          expansionPhaseH f options reflRef expRef centroidRef (s.Points.length - 1)
            (reflectH (computeCentroidH σ centroidRef n s (s.Points.length - 1))
              (s.Points.getD (s.Points.length - 1) default).X f reflRef centroidRef
              options.Alpha).2
            (reflectH (computeCentroidH σ centroidRef n s (s.Points.length - 1))
              (s.Points.getD (s.Points.length - 1) default).X f reflRef centroidRef
              options.Alpha).1 s
        else
          contractionPhaseH f options reflRef contrRef centroidRef (s.Points.length - 1)
            (reflectH (computeCentroidH σ centroidRef n s (s.Points.length - 1))
              (s.Points.getD (s.Points.length - 1) default).X f reflRef centroidRef
              options.Alpha).2
            (reflectH (computeCentroidH σ centroidRef n s (s.Points.length - 1))
              (s.Points.getD (s.Points.length - 1) default).X f reflRef centroidRef
              options.Alpha).1 s).1 ∧
        pointRefs (if (reflectH (computeCentroidH σ centroidRef n s (s.Points.length - 1))
              (s.Points.getD (s.Points.length - 1) default).X f reflRef centroidRef
              options.Alpha).2 <
            (s.Points.getD (s.Points.length - 2) default).F then
          expansionPhaseH f options reflRef expRef centroidRef (s.Points.length - 1)
            (reflectH (computeCentroidH σ centroidRef n s (s.Points.length - 1))
              (s.Points.getD (s.Points.length - 1) default).X f reflRef centroidRef
              options.Alpha).2
            (reflectH (computeCentroidH σ centroidRef n s (s.Points.length - 1))
              (s.Points.getD (s.Points.length - 1) default).X f reflRef centroidRef
              options.Alpha).1 s
        else
          contractionPhaseH f options reflRef contrRef centroidRef (s.Points.length - 1)
            (reflectH (computeCentroidH σ centroidRef n s (s.Points.length - 1))
              (s.Points.getD (s.Points.length - 1) default).X f reflRef centroidRef
              options.Alpha).2
            (reflectH (computeCentroidH σ centroidRef n s (s.Points.length - 1))
              (s.Points.getD (s.Points.length - 1) default).X f reflRef centroidRef
              options.Alpha).1 s).2 ⊆ W ∧
        (if (reflectH (computeCentroidH σ centroidRef n s (s.Points.length - 1))
              (s.Points.getD (s.Points.length - 1) default).X f reflRef centroidRef
              options.Alpha).2 <
            (s.Points.getD (s.Points.length - 2) default).F then
          expansionPhaseH f options reflRef expRef centroidRef (s.Points.length - 1)
            (reflectH (computeCentroidH σ centroidRef n s (s.Points.length - 1))
              (s.Points.getD (s.Points.length - 1) default).X f reflRef centroidRef
              options.Alpha).2
            (reflectH (computeCentroidH σ centroidRef n s (s.Points.length - 1))
              (s.Points.getD (s.Points.length - 1) default).X f reflRef centroidRef
              options.Alpha).1 s
        else
          contractionPhaseH f options reflRef contrRef centroidRef (s.Points.length - 1)
            (reflectH (computeCentroidH σ centroidRef n s (s.Points.length - 1))
              (s.Points.getD (s.Points.length - 1) default).X f reflRef centroidRef
              options.Alpha).2
            (reflectH (computeCentroidH σ centroidRef n s (s.Points.length - 1))
              (s.Points.getD (s.Points.length - 1) default).X f reflRef centroidRef
              options.Alpha).1 s).2.Points.length = s.Points.length := by
      split
      · obtain ⟨a, b, c⟩ := expansionPhaseH_spec f options reflRef expRef centroidRef
          (s.Points.length - 1) _ W _ s hW h1 h2 hlast
        exact ⟨(reflectH_write _ _ f reflRef centroidRef options.Alpha W h1).trans a, b, c⟩
      · obtain ⟨a, b, c⟩ := contractionPhaseH_spec f options reflRef contrRef centroidRef
          (s.Points.length - 1) _ W _ s hW h1 h3 hlast
        exact ⟨(reflectH_write _ _ f reflRef centroidRef options.Alpha W h1).trans a, b, c⟩
    obtain ⟨a, b, c⟩ := hstep
    refine ⟨?_, ?_, ?_⟩
    · exact ((WritesWithin.write σ _ h4).trans a).trans
        (clampBestH_frame _ _ options.Constraints W
          (pointRefs_sortSimplexH _ W (by rw [pointRefs_evalAllH]; exact b)))
    · exact pointRefs_sortSimplexH _ W (by rw [pointRefs_evalAllH]; exact b)
    · rw [sortSimplexH_length, evalAllH_length, c]

theorem RunLoopH_frame (sqrtFn : ℚ → ℚ) (f : Objective) (options : Options) (n : Nat)
    (reflRef expRef contrRef centroidRef : Nat) (W : List Nat)
    (h1 : reflRef ∈ W) (h2 : expRef ∈ W) (h3 : contrRef ∈ W) (h4 : centroidRef ∈ W) :
    ∀ (fuel : Nat) (σ : Store) (s : HSimplex), pointRefs s ⊆ W → s.Points ≠ [] →
    WritesWithin W σ
      (RunLoopH sqrtFn f options n reflRef expRef contrRef centroidRef fuel σ s).1 := by
  intro fuel
  induction fuel with
  | zero => intro σ s _ _; exact WritesWithin.refl W σ
  | succ fuel ih =>
    intro σ s hW hne
    obtain ⟨a, b, c⟩ := runIterationH_spec f options n reflRef expRef contrRef centroidRef
      W σ s hW h1 h2 h3 h4 hne
    have hne2 : (runIterationH f options n reflRef expRef contrRef centroidRef
        σ s).1.2.Points ≠ [] := by
      intro h0
      have : (runIterationH f options n reflRef expRef contrRef centroidRef
          σ s).1.2.Points.length = 0 := by rw [h0]; rfl
      rw [c] at this
      exact hne (List.length_eq_zero.mp this)
    unfold RunLoopH
    dsimp only
    split
    · exact a
    · split
      · exact a
      · exact a.trans (ih _ _ b hne2)

theorem RunH_tail_frame (sqrtFn : ℚ → ℚ) (f : Objective) (options : Options)
    (σ : Store) (xr : Nat) (hxr : xr < σ.length)
    (cσ : Store) (cs : HSimplex) (row : List ℚ) (L : Nat)
    (hcre1 : ∀ r, r ∉ pointRefs cs → readRef cσ r = readRef σ r)
    (hcre2 : ∀ r ∈ pointRefs cs, σ.length ≤ r)
    (hcre3 : cσ.length = σ.length + (L + 1))
    (hcre4 : cs.Points.length = L + 1) :
    readRef (RunLoopH sqrtFn f options L cσ.length (cσ ++ [row]).length
      (cσ ++ [row] ++ [row]).length (cσ ++ [row] ++ [row] ++ [row]).length
      options.MaxIterations.toNat (cσ ++ [row] ++ [row] ++ [row] ++ [row])
      (sortSimplexH (evalAllH f cσ cs))).1 xr = readRef σ xr := by
  have hL1 : (cσ ++ [row]).length = cσ.length + 1 := by simp
  have hL2 : (cσ ++ [row] ++ [row]).length = cσ.length + 2 := by simp
  have hL3 : (cσ ++ [row] ++ [row] ++ [row]).length = cσ.length + 3 := by simp
  have hxnotW : xr ∉ pointRefs cs := fun hm =>
    absurd (hcre2 xr hm) (Nat.not_le.mpr hxr)
  rw [hL1, hL2, hL3]
  set W : List Nat :=
    pointRefs cs ++ [cσ.length, cσ.length + 1, cσ.length + 2, cσ.length + 3] with hW
  have hxW : xr ∉ W := by
    intro hm
    rcases List.mem_append.mp hm with hm | hm
    · exact hxnotW hm
    · simp only [List.mem_cons, List.not_mem_nil, or_false] at hm
      rcases hm with rfl | rfl | rfl | rfl <;> omega
  have hsub : pointRefs cs ⊆ W := fun r hr => List.mem_append.mpr (Or.inl hr)
  have hinit : pointRefs (sortSimplexH (evalAllH f cσ cs)) ⊆ W :=
    pointRefs_sortSimplexH _ W (by rw [pointRefs_evalAllH]; exact hsub)
  have hinitne : (sortSimplexH (evalAllH f cσ cs)).Points ≠ [] := by
    intro h0
    have h1 : (sortSimplexH (evalAllH f cσ cs)).Points.length = 0 := by
      rw [h0]
      rfl
    rw [sortSimplexH_length, evalAllH_length, hcre4] at h1
    omega
  have hscr1 : cσ.length ∈ W := by rw [hW]; simp
  have hscr2 : cσ.length + 1 ∈ W := by rw [hW]; simp
  have hscr3 : cσ.length + 2 ∈ W := by rw [hW]; simp
  have hscr4 : cσ.length + 3 ∈ W := by rw [hW]; simp
  have hframe := RunLoopH_frame sqrtFn f options L
    cσ.length (cσ.length + 1) (cσ.length + 2) (cσ.length + 3) W
    hscr1 hscr2 hscr3 hscr4 options.MaxIterations.toNat
    (cσ ++ [row] ++ [row] ++ [row] ++ [row])
    (sortSimplexH (evalAllH f cσ cs)) hinit hinitne
  rw [hframe xr hxW]
  have hxr3 : xr ≠ (cσ ++ [row] ++ [row] ++ [row]).length := by rw [hL3]; omega
  have hxr2 : xr ≠ (cσ ++ [row] ++ [row]).length := by rw [hL2]; omega
  have hxr1 : xr ≠ (cσ ++ [row]).length := by rw [hL1]; omega
  have hxr0 : xr ≠ cσ.length := by omega
  rw [readRef_append_ne _ _ xr hxr3, readRef_append_ne _ _ xr hxr2,
    readRef_append_ne _ _ xr hxr1, readRef_append_ne _ _ xr hxr0]
  exact hcre1 xr hxnotW

/-- Claim C10: `Run` never modifies the caller's initial-guess slice.  In the
store model, for every objective, options, store and valid reference `xr`
holding `x0`, the contents of `xr` after `RunH` (with or without error) equal
its contents before: validation only reads `x0`, `createSimplex` copies it
into freshly allocated rows, and every later write hits a simplex row or a
scratch row. -/
theorem C10_run_preserves_x0 (sqrtFn : ℚ → ℚ) (f : Objective) (options : Options)
    (σ : Store) (xr : Nat) (hxr : xr < σ.length) :
    readRef (RunH sqrtFn f σ xr options).1 xr = readRef σ xr := by
  unfold RunH
  dsimp only
  cases options.validate with
  | some msg => rfl
  | none =>
    cases options.validateX0 (readRef σ xr) with
    | some msg => rfl
    | none =>
      dsimp only
      unfold allocRef
      dsimp only
      obtain ⟨hcre1, hcre2, hcre3, hcre4⟩ :=
        createSimplexH_spec σ xr (readRef σ xr).length options.Constraints
      exact RunH_tail_frame sqrtFn f options σ xr hxr
        (createSimplexH σ xr (readRef σ xr).length options.Constraints).1
        (createSimplexH σ xr (readRef σ xr).length options.Constraints).2
        (List.replicate (readRef σ xr).length 0) (readRef σ xr).length
        hcre1 hcre2 hcre3 hcre4

/-- Witness for claim C10 at a concrete store holding the caller's slice. -/
theorem C10_witness :
    0 < ([[(5 : ℚ)]] : Store).length ∧
    readRef (RunH ratSqrt cexObjective [[(5 : ℚ)]] 0 cexNoConOptions).1 0 =
      readRef [[(5 : ℚ)]] 0 :=
  ⟨by norm_num,
    C10_run_preserves_x0 ratSqrt cexObjective cexNoConOptions [[(5 : ℚ)]] 0 (by norm_num)⟩

end NelderMead
